import Mathlib

/-!
Verification of the FTU-Mixer control plane (file src/source/ftumixer.py).

The development shallowly embeds:
  * the `Mixer` class: route matrices (analog/digital), effects controls,
    volume get/set, `MuteMostDigitalRoutes`, the config codec
    (`GetConfigDict` / `ParseConfigDict`) and the polling loop's per-cycle
    batching (`__PollForChanges`);
  * the `Gui` class: slider table, link table, the cascading volume
    propagation (`__OnHardwareRouting`) and the GUI part of the config codec.

Conventions used by the embedding:
  * an ALSA control (a "route") is modelled by the integer volume it stores;
    `setvolume` stores the value handed to it and `getvolume()[0]` reads it
    back;
  * Python `list` indexing is modelled by `pyIdx` / `pySetIdx`, including the
    negative-index wrap-around and the `IndexError` (= `none`) outside
    `[-len, len)`;
  * Python `str.split`, `str.lstrip`, `str.rstrip` and `int(...)` are
    modelled by `pySplit`, `pyLStrip`, `pyRStrip` and `pyInt`;
  * a raised exception is modelled by `none`;
  * observer callbacks are modelled by a counter `obs` (the length of
    `self.__observers`) and a log of dispatched `(analog, digital)` change
    lists, one entry per callback invocation.
-/

/-- Python list indexing: normalise an index to a position, with the
negative wrap-around; `none` models `IndexError`. -/
def pyNorm (len : Nat) (i : Int) : Option Nat :=
  if 0 ≤ i then (if i < (len : Int) then some i.toNat else none)
  else (if 0 ≤ i + (len : Int) then some (i + (len : Int)).toNat else none)

/-- Python `l[i]`. -/
def pyIdx (l : List α) (i : Int) : Option α :=
  (pyNorm l.length i).bind (fun n => l.get? n)

/-- Python `l[i] = a`. -/
def pySetIdx (l : List α) (i : Int) (a : α) : Option (List α) :=
  (pyNorm l.length i).map (fun n => l.set n a)

/-- Decimal digit characters of a natural number, most significant first
(the output of Python's `"%i" % n` for `n ≥ 0`). -/
def natDigits (n : Nat) : List Char :=
  if _h : n < 10 then [Nat.digitChar n]
  else natDigits (n / 10) ++ [Nat.digitChar (n % 10)]
  decreasing_by exact Nat.div_lt_self (by omega) (by omega)

def natStr (n : Nat) : String := String.mk (natDigits n)

/-- Numeric value of a list of decimal digit characters, `none` models the
`ValueError` of Python's `int` on an empty or non-numeric string. -/
def digitsToNat (cs : List Char) : Option Nat :=
  if cs = [] then none
  else if cs.all Char.isDigit then
    some (cs.foldl (fun a c => a * 10 + (c.toNat - 48)) 0)
  else none

/-- Python `int(s)` on a character list (sign handling plus decimal digits). -/
def pyIntChars : List Char → Option Int
  | [] => none
  | c :: rest =>
    if c = '-' then (digitsToNat rest).map (fun n => -(n : Int))
    else if c = '+' then (digitsToNat rest).map (fun n => (n : Int))
    else (digitsToNat (c :: rest)).map (fun n => (n : Int))

/-- Python `int(s)`. -/
def pyInt (s : String) : Option Int := pyIntChars s.toList

/-- Worker for `pySplit`: scan the character list, splitting at each
occurrence of the (non-empty) separator `s0 :: srest`. -/
def splitGo (s0 : Char) (srest : List Char) : List Char → List Char → List (List Char)
  | acc, [] => [acc.reverse]
  | acc, c :: rest =>
    if c = s0 ∧ srest.isPrefixOf rest then
      acc.reverse :: splitGo s0 srest [] (rest.drop srest.length)
    else
      splitGo s0 srest (c :: acc) rest
  termination_by _acc l => l.length
  decreasing_by
    · simp only [List.length_cons]
      exact Nat.lt_succ_of_le (List.length_drop _ _ ▸ Nat.sub_le _ _)
    · simp

/-- Python `s.split(sep)` on character lists, non-empty separator. -/
def pySplitChars (sep l : List Char) : List (List Char) :=
  match sep with
  | [] => [l]
  | s0 :: srest => splitGo s0 srest [] l

/-- Python `s.split(sep)` for a non-empty separator. -/
def pySplit (sep s : String) : List String :=
  (pySplitChars sep.toList s.toList).map String.mk

/-- Python `s.lstrip(chars)`. -/
def pyLStrip (chars s : String) : String :=
  String.mk (s.toList.dropWhile (fun c => c ∈ chars.toList))

/-- Python `s.rstrip(chars)`. -/
def pyRStrip (chars s : String) : String :=
  String.mk ((s.toList.reverse.dropWhile (fun c => c ∈ chars.toList)).reverse)

/-- A value stored in a config dictionary: `GetConfigDict` stores integers
(route and linear-effect volumes) and strings (enum selections, GUI link
entries). -/
inductive CV where
  | num (n : Int)
  | str (s : String)
  deriving DecidableEq, Repr

/-- Python `int(v)` on a config value. -/
def cvToInt : CV → Option Int
  | CV.num n => some n
  | CV.str s => pyInt s

/-- First-match association-list lookup (Python `d[k]` / `k in d` for the
string-keyed dictionaries of the codec; keys are unique in every dictionary
the program builds). -/
def lookupKV (l : List (String × α)) (k : String) : Option α :=
  match l with
  | [] => none
  | (k', v) :: rest => if k' = k then some v else lookupKV rest k

/-- Lookup in the descriptor table keyed by file descriptor. -/
def lookupNat (l : List (Nat × α)) (k : Nat) : Option α :=
  match l with
  | [] => none
  | (k', v) :: rest => if k' = k then some v else lookupNat rest k

/-- An effects control is either linear (a volume, `getenum() == ()`) or
enumerated (a current selection and the list of selectable items,
`getenum() == (selection, items)`). -/
inductive FxKind where
  | linear (volume : Int)
  | enum (selection : String) (items : List String)
  deriving DecidableEq, Repr

structure FxControl where
  name : String
  kind : FxKind
  deriving DecidableEq, Repr

/-- One dispatched observer notification: the changed analog and digital
route lists handed to a callback. -/
abbrev Dispatch := List (Int × Int) × List (Int × Int)

/-- State of the `Mixer` object: the volumes stored by the analog and
digital route controls, the effects controls, the number of registered
observers and the log of observer invocations performed so far. -/
structure MixerState where
  analog : List (List Int)
  digital : List (List Int)
  fx : List FxControl
  obs : Nat
  log : List Dispatch
  deriving DecidableEq, Repr

/-- State of the `Gui` object: the slider values and the link table
(`self.__links`). -/
structure GuiState where
  sliders : List (List Int)
  links : List (Option Nat)
  deriving DecidableEq, Repr

/-- `Mixer.GetVolume`: `self.__*_routes[output_channel][input_channel].getvolume()[0]`. -/
def Mixer.GetVolume (st : MixerState) (o i : Int) (digital : Bool) : Option Int :=
  if digital then (pyIdx st.digital o).bind (fun row => pyIdx row i)
  else (pyIdx st.analog o).bind (fun row => pyIdx row i)

/-- Write `v` into cell `(o, i)` of a route matrix, Python indexing. -/
def pySet2 (m : List (List Int)) (o i : Int) (v : Int) : Option (List (List Int)) := do
  let row ← pyIdx m o
  let row2 ← pySetIdx row i v
  pySetIdx m o row2

/-- `Mixer.SetVolume`: looks up the route object and calls
`setvolume(value, 0)` on it; the value is handed to the control unchanged
(the method performs no range check of its own). -/
def Mixer.SetVolume (st : MixerState) (value : Int) (o i : Int) (digital : Bool) :
    Option MixerState :=
  if digital then (pySet2 st.digital o i value).map (fun d2 => { st with digital := d2 })
  else (pySet2 st.analog o i value).map (fun a2 => { st with analog := a2 })

/-- Inner loop of `MuteMostDigitalRoutes`: `for i in range(len(row)): if o != i: setvolume(0, 0)`. -/
def muteDigitalCells (o i : Nat) : List Int → List Int
  | [] => []
  | v :: rest => (if o ≠ i then 0 else v) :: muteDigitalCells o (i + 1) rest

/-- Outer loop of `MuteMostDigitalRoutes` over the digital rows. -/
def muteDigitalRows (o : Nat) : List (List Int) → List (List Int)
  | [] => []
  | row :: rest => muteDigitalCells o 0 row :: muteDigitalRows (o + 1) rest

/-- `Mixer.MuteMostDigitalRoutes`. -/
def Mixer.MuteMostDigitalRoutes (st : MixerState) : MixerState :=
  { st with digital := muteDigitalRows 0 st.digital }

/-- `n.replace(" ", "_").lower()` applied to an effects control name. -/
def normalizeName (s : String) : String :=
  String.mk ((s.toList.map (fun c => if c = ' ' then '_' else c)).map Char.toLower)

/-- `"%s%i_to_out%i" % (pfx, i + 1, o + 1)`, the Analog/Digital config key. -/
def routeKey (pfx : String) (i o : Nat) : String :=
  pfx ++ natStr (i + 1) ++ "_to_out" ++ natStr (o + 1)

/-- Inner loop of the Analog part of `GetConfigDict`: walks one analog row,
keying cell `i` of row `o` as `ain{i+1}_to_out{o+1}`. -/
def encodeAnalogCells (o i : Nat) : List Int → List (String × CV)
  | [] => []
  | v :: rest => (routeKey "ain" i o, CV.num v) :: encodeAnalogCells o (i + 1) rest

/-- Outer loop of the Analog part of `GetConfigDict`. -/
def encodeAnalogRows (o : Nat) : List (List Int) → List (String × CV)
  | [] => []
  | row :: rest => encodeAnalogCells o 0 row ++ encodeAnalogRows (o + 1) rest

/-- Inner loop of the Digital part of `GetConfigDict`: the source iterates
`for i in range(len(self.__analog_routes[o]))` (note: the ANALOG row length)
and reads `self.GetVolume(o, i, digital=True)`, which can raise `IndexError`
(= `none`). `count` is the analog row length, `i` the loop counter. -/
def encodeDigitalCells (st : MixerState) (o : Nat) : Nat → Nat → Option (List (String × CV))
  | _, 0 => some []
  | i, k + 1 => do
    let v ← Mixer.GetVolume st o i true
    let rest ← encodeDigitalCells st o (i + 1) k
    pure ((routeKey "din" i o, CV.num v) :: rest)

/-- Outer loop of the Digital part of `GetConfigDict`: `o` ranges over the
digital rows, but the iteration width is `len(self.__analog_routes[o])`. -/
def encodeDigitalRows (st : MixerState) (o : Nat) : List (List Int) → Option (List (String × CV))
  | [] => some []
  | _ :: rest => do
    let arow ← st.analog.get? o
    let cells ← encodeDigitalCells st o 0 arow.length
    let more ← encodeDigitalRows st (o + 1) rest
    pure (cells ++ more)

/-- The value `GetConfigDict` stores for one effects control: the volume
(`getvolume()[0]`) of a linear control, the current selection
(`getenum()[0]`) of an enumerated one. -/
def fxDump (c : FxControl) : CV :=
  match c.kind with
  | FxKind.linear v => CV.num v
  | FxKind.enum sel _ => CV.str sel

/-- Effects part of `GetConfigDict`: linear controls dump their volume,
enumerated controls their current selection, keyed by the normalised name. -/
def encodeEffects (fx : List FxControl) : List (String × CV) :=
  fx.map (fun c => (normalizeName c.name, fxDump c))

/-- Invariant of a reachable control: an enumerated control's current
selection is one of its items (`getenum()` reports the active item). -/
def selOk (c : FxControl) : Bool :=
  match c.kind with
  | FxKind.linear _ => true
  | FxKind.enum sel items => decide (sel ∈ items)

/-- A config dictionary: sections (in insertion order) of key/value lists. -/
abbrev ConfigDict := List (String × List (String × CV))

/-- `Mixer.GetConfigDict`. -/
def Mixer.GetConfigDict (st : MixerState) : Option ConfigDict := do
  let dsec ← encodeDigitalRows st 0 st.digital
  pure [("Analog", encodeAnalogRows 0 st.analog),
        ("Digital", dsec),
        ("Effects", encodeEffects st.fx)]

/-- `i, o = [int(s) - 1 for s in key.split(pfx)[1].split("_to_out")]`:
`none` models the `IndexError` (fewer than two pieces of the first split),
`ValueError` (non-numeric piece) or unpacking error (piece count differing
from two). -/
def intsOf : List String → Option (List Int)
  | [] => some []
  | s :: rest => do
    let n ← pyInt s
    let ns ← intsOf rest
    pure (n :: ns)

def parseRouteKey (pfx key : String) : Option (Int × Int) :=
  match (pySplit pfx key).get? 1 with
  | none => none
  | some sub =>
    match intsOf (pySplit "_to_out" sub) with
    | some [a, b] => some (a - 1, b - 1)
    | _ => none

/-- One section loop of `ParseConfigDict` (Analog when `digital = false`,
Digital when `digital = true`): parse each key, set the volume, and append
the raw `(o, i)` pair to the changed list. -/
def applyRouteKeysGo (digital : Bool) (st : MixerState) :
    List (String × CV) → Option (MixerState × List (Int × Int))
  | [] => some (st, [])
  | (k, v) :: rest => do
    let io ← parseRouteKey (if digital then "din" else "ain") k
    let nv ← cvToInt v
    let st2 ← Mixer.SetVolume st nv io.2 io.1 digital
    let (st3, ch) ← applyRouteKeysGo digital st2 rest
    pure (st3, (io.2, io.1) :: ch)

/-- Spec-side characterisation used to settle an implicit claim about
`ParseConfigDict`: the `(output, input)` pairs named by a section's keys, in
key order, independent of any volume state. -/
def specNamedRoutes (pfx : String) : List (String × CV) → Option (List (Int × Int))
  | [] => some []
  | (k, _) :: rest => do
    let io ← parseRouteKey pfx k
    let ps ← specNamedRoutes pfx rest
    pure ((io.2, io.1) :: ps)

/-- `alsaaudio.Mixer(n, ...)`: resolve a control by name. -/
def findFx : List FxControl → String → Option FxControl
  | [], _ => none
  | c :: rest, n => if c.name = n then some c else findFx rest n

/-- `mixer.setvolume(nv, 0)` on the control named `n` (a linear control). -/
def setFxVol : List FxControl → String → Int → List FxControl
  | [], _, _ => []
  | c :: rest, n, nv =>
    if c.name = n then
      { c with kind := match c.kind with
                       | FxKind.linear _ => FxKind.linear nv
                       | k => k } :: rest
    else c :: setFxVol rest n nv

/-- The `amixer ... sset` subprocess, modelled from the spec: it selects the
given enumerated item on the control named `n` (the repository shells out to
`amixer` because pyalsaaudio cannot set enum controls). -/
def setFxSel : List FxControl → String → String → List FxControl
  | [], _, _ => []
  | c :: rest, n, s =>
    if c.name = n then
      { c with kind := match c.kind with
                       | FxKind.enum _ items => FxKind.enum s items
                       | k => k } :: rest
    else c :: setFxSel rest n s

/-- Effects-section body of `ParseConfigDict` for a single control name `n`:
skip if the normalised name is absent from the section; otherwise set the
linear volume (`int(...)` may raise) or, for an enum control, select the
item when the stored value is one of the items and silently skip otherwise. -/
def effApplyOne (eff : List (String × CV)) (st : MixerState) (n : String) : Option MixerState :=
  match lookupKV eff (normalizeName n) with
  | none => some st
  | some v =>
    match findFx st.fx n with
    | none => none
    | some c =>
      match c.kind with
      | FxKind.linear _ =>
        (cvToInt v).map (fun nv => { st with fx := setFxVol st.fx n nv })
      | FxKind.enum _ items =>
        match v with
        | CV.str s =>
          if s ∈ items then some { st with fx := setFxSel st.fx n s } else some st
        | CV.num _ => some st

/-- `for n in self.__fx_control_names: ...` of `ParseConfigDict`. -/
def applyEffectsGo (eff : List (String × CV)) : List String → MixerState → Option MixerState
  | [], st => some st
  | n :: rest, st => (effApplyOne eff st n).bind (applyEffectsGo eff rest)

/-- The `if "Analog" in configdict` / `if "Digital" in configdict` step of
`ParseConfigDict`: when the section is absent, nothing changes and no route
is recorded; when present, its loop runs. -/
def sectionApply (dig : Bool) (st : MixerState) (osec : Option (List (String × CV))) :
    Option (MixerState × List (Int × Int)) :=
  match osec with
  | none => some (st, [])
  | some sec => applyRouteKeysGo dig st sec

/-- The `if "Effects" in configdict` step of `ParseConfigDict`. -/
def effectsApply (st : MixerState) (osec : Option (List (String × CV))) : Option MixerState :=
  match osec with
  | none => some st
  | some sec => applyEffectsGo sec (st.fx.map (fun c => c.name)) st

/-- `Mixer.ParseConfigDict`: apply the Analog, Digital and Effects sections
(each only when present), then call every registered observer once with the
two changed-route lists. The returned pair of lists is the argument handed
to the observers. -/
def Mixer.ParseConfigDict (st : MixerState) (d : ConfigDict) :
    Option (MixerState × List (Int × Int) × List (Int × Int)) :=
  (sectionApply false st (lookupKV d "Analog")).bind (fun r1 =>
  (sectionApply true r1.1 (lookupKV d "Digital")).bind (fun r2 =>
  (effectsApply r2.1 (lookupKV d "Effects")).bind (fun st3 =>
  some ({ st3 with log := st3.log ++ List.replicate st3.obs (r1.2, r2.2) },
        r1.2, r2.2))))

/-- Loop body of `__PollForChanges` over the descriptors returned by
`self.__poll.poll(700)`: a descriptor whose event mask has the `POLLIN` bit
(value 1) set has its route recorded in the analog or digital batch; a file
descriptor missing from `self.__descriptors_to_routes` would be a `KeyError`
(= `none`). Batch order follows the event order. -/
def collectChanges (dmap : List (Nat × (Nat × Nat × Bool))) :
    List (Nat × Nat) → Option (List (Nat × Nat) × List (Nat × Nat))
  | [] => some ([], [])
  | (fd, revents) :: rest =>
    if revents &&& 1 ≠ 0 then
      match lookupNat dmap fd with
      | none => none
      | some (o, i, dig) =>
        (collectChanges dmap rest).map
          (fun p => if dig then (p.1, (o, i) :: p.2) else ((o, i) :: p.1, p.2))
    else collectChanges dmap rest

/-- One cycle of the `__PollForChanges` loop: gather the batch and, if it is
non-empty, call every observer once with both lists; otherwise do nothing. -/
def Mixer.pollCycle (st : MixerState) (dmap : List (Nat × (Nat × Nat × Bool)))
    (events : List (Nat × Nat)) : Option MixerState :=
  (collectChanges dmap events).map (fun p =>
    if p.1 ≠ [] ∨ p.2 ≠ [] then
      { st with log := st.log ++ (List.replicate st.obs
          ((p.1.map (fun q => ((q.1 : Int), (q.2 : Int)))),
           (p.2.map (fun q => ((q.1 : Int), (q.2 : Int)))))) }
    else st)

/-- `Gui.GetConfigDict` loop over `self.__links`: key `link{i+1}to`, value
`"0"` for `None` and `str(target + 1)` otherwise. -/
def encodeLinks (o : Nat) : List (Option Nat) → List (String × CV)
  | [] => []
  | l :: rest =>
    ("link" ++ natStr (o + 1) ++ "to",
     CV.str (match l with | none => "0" | some t => natStr (t + 1))) :: encodeLinks (o + 1) rest

/-- `Gui.GetConfigDict`. -/
def Gui.GetConfigDict (g : GuiState) : List (String × CV) :=
  encodeLinks 0 g.links

/-- Loop body of `Gui.ParseConfigDict`:
`link = int(key.lstrip("link").rstrip("to")) - 1; to = int(value) - 1`,
then `self.__links[link]` is set to `None` when `to < 0` and to `to`
otherwise (list assignment may raise `IndexError`). -/
def guiApplyOne (g : GuiState) (k : String) (v : CV) : Option GuiState := do
  let ln ← pyInt (pyRStrip "to" (pyLStrip "link" k))
  let toI ← cvToInt v
  if toI - 1 < 0 then
    (pySetIdx g.links (ln - 1) none).map (fun l => { g with links := l })
  else
    (pySetIdx g.links (ln - 1) (some (toI - 1).toNat)).map (fun l => { g with links := l })

/-- The `for key in configdict["GUI"]` loop. -/
def applyGuiKeys (g : GuiState) : List (String × CV) → Option GuiState
  | [] => some g
  | (k, v) :: rest => (guiApplyOne g k v).bind (fun g2 => applyGuiKeys g2 rest)

/-- `Gui.ParseConfigDict`: only the `GUI` section is consulted. -/
def Gui.ParseConfigDict (g : GuiState) (d : ConfigDict) : Option GuiState :=
  match lookupKV d "GUI" with
  | none => some g
  | some sec => applyGuiKeys g sec

/-- `Config.Save`'s dictionary assembly: the mixer's sections followed by
the GUI's `GUI` section. -/
def encodeAll (st : MixerState) (g : GuiState) : Option ConfigDict :=
  (Mixer.GetConfigDict st).map (fun d => d ++ [("GUI", Gui.GetConfigDict g)])

/-- `Config.Load`'s application order: `Mixer.ParseConfigDict`, then
`Gui.ParseConfigDict`, both on the same dictionary. -/
def decodeAll (st : MixerState) (g : GuiState) (d : ConfigDict) :
    Option (MixerState × GuiState) := do
  let r ← Mixer.ParseConfigDict st d
  let g2 ← Gui.ParseConfigDict g d
  pure (r.1, g2)

/-- `self.__hardwarerouting_sliders[o][i][0].SetValue(v)` (the widget stores
the value; only values in the slider range 0–100 occur on the paths the
program takes). -/
def setSliderVal (g : GuiState) (o i : Nat) (v : Int) : Option GuiState := do
  let row ← g.sliders.get? o
  let _ ← row.get? i
  pure { g with sliders := g.sliders.set o (row.set i v) }

/-- `Gui.__OnHardwareRouting` with explicit recursion fuel (`none` at fuel 0
stands for a recursion that has not yet terminated). `eventId` is the
identity `(output, input)` of the slider the driving `wx` event originated
from (`None` for the macro buttons, which pass `event=None`); slider ids are
distinct, so comparing `event.GetId()` with `linked_slider.GetId()` is
comparing these pairs. The body reads the slider value, sets the mixer
volume, and when a link target exists and an event is present and the
linked slider is not the event's origin, copies the value onto the linked
slider and recurses on the link target. -/
def onHardwareRouting : Nat → Option (Nat × Nat) → Nat → Nat → GuiState → MixerState →
    Option (GuiState × MixerState)
  | 0, _, _, _, _, _ => none
  | fuel + 1, eventId, oc, ic, g, m => do
    let volume ← (g.sliders.get? oc).bind (fun row => row.get? ic)
    let m2 ← Mixer.SetVolume m volume oc ic false
    let linked ← g.links.get? oc
    match linked, eventId with
    | some L, some eid => do
      let _ ← (g.sliders.get? L).bind (fun row => row.get? ic)
      if eid = (L, ic) then pure (g, m2)
      else do
        let g2 ← setSliderVal g L ic volume
        onHardwareRouting fuel eventId L ic g2 m2
    | _, _ => pure (g, m2)

/-- The user-facing set-volume path: dragging slider `(oc, ic)` to `v`
stores `v` in the widget and fires `EVT_SLIDER` with that slider's id,
invoking `Gui.__OnHardwareRouting`. -/
def userSetVolume (fuel : Nat) (v : Int) (oc ic : Nat) (g : GuiState) (m : MixerState) :
    Option (GuiState × MixerState) := do
  let g1 ← setSliderVal g oc ic v
  onHardwareRouting fuel (some (oc, ic)) oc ic g1 m

/-! ### Basic list and Python-indexing lemmas -/

theorem list_set_self (l : List α) (n : Nat) (a : α) (h : l.get? n = some a) :
    l.set n a = l := by
  induction l generalizing n with
  | nil => exact Option.noConfusion h
  | cons x xs ih =>
    cases n with
    | zero =>
      have h0 : some x = some a := h
      cases h0
      rfl
    | succ m =>
      have h' : xs.get? m = some a := h
      show x :: xs.set m a = x :: xs
      rw [ih m h']

theorem drop_cons_step (l : List α) (i : Nat) (v : α) (rest : List α)
    (h : l.drop i = v :: rest) : l.get? i = some v ∧ l.drop (i + 1) = rest := by
  induction l generalizing i with
  | nil => simp at h
  | cons x xs ih =>
    cases i with
    | zero =>
      simp only [List.drop_zero] at h
      cases h
      exact ⟨rfl, rfl⟩
    | succ m =>
      simp only [List.drop_succ_cons] at h
      exact ih m h

theorem pyNorm_coe (len n : Nat) : pyNorm len (n : Int) = if n < len then some n else none := by
  unfold pyNorm
  rw [if_pos (by exact_mod_cast Nat.zero_le n)]
  by_cases h : n < len
  · rw [if_pos (by exact_mod_cast h), if_pos h, Int.toNat_natCast]
  · rw [if_neg (by exact_mod_cast h), if_neg h]

theorem pyIdx_coe (l : List α) (n : Nat) : pyIdx l (n : Int) = l.get? n := by
  unfold pyIdx
  rw [pyNorm_coe]
  by_cases h : n < l.length
  · rw [if_pos h]; rfl
  · rw [if_neg h]
    exact (List.get?_eq_none.mpr (Nat.le_of_not_lt h)).symm

theorem pySetIdx_coe (l : List α) (n : Nat) (a : α) :
    pySetIdx l (n : Int) a = if n < l.length then some (l.set n a) else none := by
  unfold pySetIdx
  rw [pyNorm_coe]
  by_cases h : n < l.length
  · rw [if_pos h, if_pos h]; rfl
  · rw [if_neg h, if_neg h]; rfl

theorem pySet2_nat (m : List (List Int)) (o i : Nat) (v : Int) (row : List Int)
    (hrow : m.get? o = some row) (hi : i < row.length) :
    pySet2 m (o : Int) (i : Int) v = some (m.set o (row.set i v)) := by
  have hlen : o < m.length := (List.get?_eq_some.mp hrow).1
  show (pyIdx m (o : Int)).bind
      (fun r => (pySetIdx r (i : Int) v).bind (fun row2 => pySetIdx m (o : Int) row2)) = _
  rw [pyIdx_coe, hrow]
  show (pySetIdx row (i : Int) v).bind (fun row2 => pySetIdx m (o : Int) row2) = _
  rw [pySetIdx_coe, if_pos hi]
  show pySetIdx m (o : Int) (row.set i v) = _
  rw [pySetIdx_coe, if_pos hlen]

theorem setVolume_nat_analog (st : MixerState) (v : Int) (o i : Nat) (row : List Int)
    (hrow : st.analog.get? o = some row) (hi : i < row.length) :
    Mixer.SetVolume st v (o : Int) (i : Int) false =
      some { st with analog := st.analog.set o (row.set i v) } := by
  unfold Mixer.SetVolume
  rw [if_neg (by simp)]
  rw [pySet2_nat st.analog o i v row hrow hi]
  rfl

theorem setVolume_nat_digital (st : MixerState) (v : Int) (o i : Nat) (row : List Int)
    (hrow : st.digital.get? o = some row) (hi : i < row.length) :
    Mixer.SetVolume st v (o : Int) (i : Int) true =
      some { st with digital := st.digital.set o (row.set i v) } := by
  unfold Mixer.SetVolume
  rw [if_pos rfl]
  rw [pySet2_nat st.digital o i v row hrow hi]
  rfl

theorem setVolume_self_analog (st : MixerState) (o i : Nat) (row : List Int) (v : Int)
    (hrow : st.analog.get? o = some row) (hi : row.get? i = some v) :
    Mixer.SetVolume st v (o : Int) (i : Int) false = some st := by
  rw [setVolume_nat_analog st v o i row hrow (List.get?_eq_some.mp hi).1]
  rw [list_set_self row i v hi, list_set_self st.analog o row hrow]

theorem setVolume_self_digital (st : MixerState) (o i : Nat) (row : List Int) (v : Int)
    (hrow : st.digital.get? o = some row) (hi : row.get? i = some v) :
    Mixer.SetVolume st v (o : Int) (i : Int) true = some st := by
  rw [setVolume_nat_digital st v o i row hrow (List.get?_eq_some.mp hi).1]
  rw [list_set_self row i v hi, list_set_self st.digital o row hrow]

theorem getVolume_nat (st : MixerState) (o i : Nat) (dig : Bool) :
    Mixer.GetVolume st (o : Int) (i : Int) dig =
      ((if dig then st.digital else st.analog).get? o).bind (fun row => row.get? i) := by
  cases dig with
  | false =>
    show (pyIdx st.analog (o : Int)).bind (fun row => pyIdx row (i : Int)) =
      (st.analog.get? o).bind (fun row => row.get? i)
    rw [pyIdx_coe]
    cases st.analog.get? o with
    | none => rfl
    | some row =>
      show pyIdx row (i : Int) = row.get? i
      exact pyIdx_coe row i
  | true =>
    show (pyIdx st.digital (o : Int)).bind (fun row => pyIdx row (i : Int)) =
      (st.digital.get? o).bind (fun row => row.get? i)
    rw [pyIdx_coe]
    cases st.digital.get? o with
    | none => rfl
    | some row =>
      show pyIdx row (i : Int) = row.get? i
      exact pyIdx_coe row i

/-! ### Decimal rendering and parsing -/

theorem digit_ne_char (c d : Char) (hc : c.isDigit = true) (hd : d.isDigit = false) : c ≠ d := by
  intro he
  rw [he, hd] at hc
  cases hc

theorem digit_not_mem (c : Char) (chars : List Char) (hc : c.isDigit = true)
    (hall : ∀ d ∈ chars, d.isDigit = false) : c ∉ chars := by
  intro hmem
  exact digit_ne_char c c hc (hall c hmem) rfl

theorem digitChar_isDigit (d : Nat) (h : d < 10) : (Nat.digitChar d).isDigit = true := by
  interval_cases d <;> decide

theorem digitChar_toNat (d : Nat) (h : d < 10) : (Nat.digitChar d).toNat = 48 + d := by
  interval_cases d <;> decide

theorem natDigits_ne_nil (n : Nat) : natDigits n ≠ [] := by
  rw [natDigits]
  by_cases h : n < 10
  · rw [dif_pos h]; simp
  · rw [dif_neg h]; simp

theorem natDigits_digit (n : Nat) : ∀ c ∈ natDigits n, c.isDigit = true := by
  induction n using Nat.strong_induction_on with
  | _ n ih =>
    rw [natDigits]
    by_cases h : n < 10
    · rw [dif_pos h]
      intro c hc
      rw [List.mem_singleton] at hc
      rw [hc]
      exact digitChar_isDigit n h
    · rw [dif_neg h]
      intro c hc
      rcases List.mem_append.mp hc with h1 | h2
      · exact ih (n / 10) (Nat.div_lt_self (by omega) (by omega)) c h1
      · rw [List.mem_singleton] at h2
        rw [h2]
        exact digitChar_isDigit (n % 10) (Nat.mod_lt _ (by omega))

theorem natDigits_fold (n : Nat) :
    (natDigits n).foldl (fun a c => a * 10 + (c.toNat - 48)) 0 = n := by
  induction n using Nat.strong_induction_on with
  | _ n ih =>
    rw [natDigits]
    by_cases h : n < 10
    · rw [dif_pos h]
      simp [List.foldl, digitChar_toNat n h]
    · rw [dif_neg h]
      rw [List.foldl_append]
      rw [ih (n / 10) (Nat.div_lt_self (by omega) (by omega))]
      simp only [List.foldl]
      rw [digitChar_toNat (n % 10) (Nat.mod_lt _ (by omega))]
      omega

theorem digitsToNat_natDigits (n : Nat) : digitsToNat (natDigits n) = some n := by
  unfold digitsToNat
  rw [if_neg (natDigits_ne_nil n)]
  rw [if_pos (List.all_eq_true.mpr (fun c hc => natDigits_digit n c hc))]
  rw [natDigits_fold]

theorem pyInt_natStr (n : Nat) : pyInt (natStr n) = some (n : Int) := by
  obtain ⟨c, rest, hsh⟩ := List.exists_cons_of_ne_nil (natDigits_ne_nil n)
  have hc : c.isDigit = true := natDigits_digit n c (by rw [hsh]; exact List.mem_cons_self c rest)
  have h0 : pyInt (natStr n) = pyIntChars (natDigits n) := rfl
  rw [h0, hsh]
  show (if c = '-' then (digitsToNat rest).map (fun m => -(m : Int))
        else if c = '+' then (digitsToNat rest).map (fun m => (m : Int))
        else (digitsToNat (c :: rest)).map (fun m => (m : Int))) = some (n : Int)
  rw [if_neg (digit_ne_char c '-' hc (by decide)), if_neg (digit_ne_char c '+' hc (by decide))]
  rw [← hsh, digitsToNat_natDigits]
  rfl

/-! ### Splitting and stripping lemmas -/

theorem splitGo_skip (s0 : Char) (srest l1 l2 acc : List Char) (h : ∀ c ∈ l1, c ≠ s0) :
    splitGo s0 srest acc (l1 ++ l2) = splitGo s0 srest (l1.reverse ++ acc) l2 := by
  induction l1 generalizing acc with
  | nil => simp
  | cons c cs ih =>
    rw [List.cons_append, splitGo]
    rw [if_neg (fun hand => h c (List.mem_cons_self c cs) hand.1)]
    rw [ih (c :: acc) (fun d hd => h d (List.mem_cons_of_mem c hd))]
    simp

theorem splitGo_all (s0 : Char) (srest l acc : List Char) (h : ∀ c ∈ l, c ≠ s0) :
    splitGo s0 srest acc l = [acc.reverse ++ l] := by
  have h2 := splitGo_skip s0 srest l [] acc h
  rw [List.append_nil] at h2
  rw [h2, splitGo]
  simp

theorem splitGo_hit (s0 : Char) (srest tail acc : List Char) :
    splitGo s0 srest acc (s0 :: (srest ++ tail)) =
      acc.reverse :: splitGo s0 srest [] tail := by
  rw [splitGo]
  rw [if_pos ⟨rfl, List.isPrefixOf_iff_prefix.mpr (List.prefix_append srest tail)⟩]
  rw [List.drop_left]

theorem toList_append (a b : String) : (a ++ b).toList = a.toList ++ b.toList :=
  String.data_append a b

theorem pySplitChars_pfx (p0 : Char) (prest tail : List Char) (hno : ∀ c ∈ tail, c ≠ p0) :
    pySplitChars (p0 :: prest) ((p0 :: prest) ++ tail) = [[], tail] := by
  show splitGo p0 prest [] ((p0 :: prest) ++ tail) = [[], tail]
  rw [List.cons_append, splitGo_hit p0 prest tail []]
  rw [splitGo_all p0 prest tail [] hno]
  rfl

theorem pySplitChars_sep (d1 d2 : List Char)
    (h1 : ∀ c ∈ d1, c ≠ '_') (h2 : ∀ c ∈ d2, c ≠ '_') :
    pySplitChars "_to_out".toList (d1 ++ ("_to_out".toList ++ d2)) = [d1, d2] := by
  show splitGo '_' "to_out".toList [] (d1 ++ ("_to_out".toList ++ d2)) = [d1, d2]
  rw [splitGo_skip '_' "to_out".toList d1 _ [] h1]
  rw [List.append_nil]
  rw [show ("_to_out".toList ++ d2) = '_' :: ("to_out".toList ++ d2) from rfl]
  rw [splitGo_hit '_' "to_out".toList d2 d1.reverse]
  rw [List.reverse_reverse, splitGo_all '_' "to_out".toList d2 [] h2]
  rfl

theorem parseRouteKey_routeKey (pfx : String) (p0 : Char) (prest : List Char)
    (hp : pfx.toList = p0 :: prest) (hd : p0.isDigit = false)
    (hsep : ∀ c ∈ "_to_out".toList, c ≠ p0) (i o : Nat) :
    parseRouteKey pfx (routeKey pfx i o) = some ((i : Int), (o : Int)) := by
  have hd1 : ∀ c ∈ natDigits (i + 1), c ≠ p0 :=
    fun c hc => digit_ne_char c p0 (natDigits_digit (i + 1) c hc) hd
  have hd2 : ∀ c ∈ natDigits (o + 1), c ≠ p0 :=
    fun c hc => digit_ne_char c p0 (natDigits_digit (o + 1) c hc) hd
  have hu1 : ∀ c ∈ natDigits (i + 1), c ≠ '_' :=
    fun c hc => digit_ne_char c '_' (natDigits_digit (i + 1) c hc) (by decide)
  have hu2 : ∀ c ∈ natDigits (o + 1), c ≠ '_' :=
    fun c hc => digit_ne_char c '_' (natDigits_digit (o + 1) c hc) (by decide)
  have htail : ∀ c ∈ natDigits (i + 1) ++ ("_to_out".toList ++ natDigits (o + 1)), c ≠ p0 := by
    intro c hc
    rcases List.mem_append.mp hc with h1 | h2
    · exact hd1 c h1
    · rcases List.mem_append.mp h2 with h3 | h4
      · exact hsep c h3
      · exact hd2 c h4
  have hkey : (routeKey pfx i o).toList =
      (p0 :: prest) ++ (natDigits (i + 1) ++ ("_to_out".toList ++ natDigits (o + 1))) := by
    show (pfx ++ natStr (i + 1) ++ "_to_out" ++ natStr (o + 1)).toList = _
    rw [toList_append, toList_append, toList_append, hp]
    rw [List.append_assoc, List.append_assoc]
    rfl
  have hsplit1 : pySplit pfx (routeKey pfx i o) =
      [String.mk [], String.mk (natDigits (i + 1) ++ ("_to_out".toList ++ natDigits (o + 1)))] := by
    unfold pySplit
    rw [hkey, hp, pySplitChars_pfx p0 prest _ htail]
    rfl
  have hsplit2 : pySplit "_to_out"
      (String.mk (natDigits (i + 1) ++ ("_to_out".toList ++ natDigits (o + 1)))) =
      [String.mk (natDigits (i + 1)), String.mk (natDigits (o + 1))] := by
    unfold pySplit
    rw [show (String.mk (natDigits (i + 1) ++ ("_to_out".toList ++ natDigits (o + 1)))).toList =
        natDigits (i + 1) ++ ("_to_out".toList ++ natDigits (o + 1)) from rfl]
    rw [pySplitChars_sep _ _ hu1 hu2]
    rfl
  have hints : intsOf [String.mk (natDigits (i + 1)), String.mk (natDigits (o + 1))] =
      some [((i : Int) + 1), ((o : Int) + 1)] := by
    have e1 : pyInt (String.mk (natDigits (i + 1))) = some ((i + 1 : Nat) : Int) :=
      pyInt_natStr (i + 1)
    have e2 : pyInt (String.mk (natDigits (o + 1))) = some ((o + 1 : Nat) : Int) :=
      pyInt_natStr (o + 1)
    unfold intsOf
    rw [e1]
    unfold intsOf
    rw [e2]
    unfold intsOf
    show some _ = some _
    push_cast
    rfl
  unfold parseRouteKey
  rw [hsplit1]
  show (match intsOf (pySplit "_to_out"
      (String.mk (natDigits (i + 1) ++ ("_to_out".toList ++ natDigits (o + 1))))) with
    | some [a, b] => some (a - 1, b - 1)
    | _ => none) = some ((i : Int), (o : Int))
  rw [hsplit2, hints]
  show some ((i : Int) + 1 - 1, (o : Int) + 1 - 1) = some ((i : Int), (o : Int))
  norm_num

theorem dropWhile_cons_eq (p : Char → Bool) (c : Char) (l : List Char) :
    (c :: l).dropWhile p = if p c then l.dropWhile p else c :: l := by
  cases h : p c <;> simp [List.dropWhile, h]

theorem dropWhile_app (p : Char → Bool) (l1 l2 : List Char) (h : ∀ c ∈ l1, p c = true) :
    (l1 ++ l2).dropWhile p = l2.dropWhile p := by
  induction l1 with
  | nil => rfl
  | cons c cs ih =>
    rw [List.cons_append, dropWhile_cons_eq, if_pos (h c (List.mem_cons_self c cs))]
    exact ih (fun d hd => h d (List.mem_cons_of_mem c hd))

theorem lstrip_linkKey (o : Nat) :
    pyLStrip "link" ("link" ++ natStr (o + 1) ++ "to") =
      String.mk (natDigits (o + 1) ++ ['t', 'o']) := by
  have hl : ("link" ++ natStr (o + 1) ++ "to").toList =
      "link".toList ++ (natDigits (o + 1) ++ ['t', 'o']) := by
    rw [toList_append, toList_append, List.append_assoc]
    rfl
  unfold pyLStrip
  rw [hl, dropWhile_app _ _ _ (fun c hc => decide_eq_true hc)]
  obtain ⟨c, cs, hsh⟩ := List.exists_cons_of_ne_nil (natDigits_ne_nil (o + 1))
  have hcd : c.isDigit = true :=
    natDigits_digit (o + 1) c (by rw [hsh]; exact List.mem_cons_self c cs)
  have hfalse : (decide (c ∈ "link".toList)) = false :=
    decide_eq_false (digit_not_mem c _ hcd (by decide))
  rw [hsh, List.cons_append, dropWhile_cons_eq, hfalse]
  simp

theorem rstrip_linkTail (o : Nat) :
    pyRStrip "to" (String.mk (natDigits (o + 1) ++ ['t', 'o'])) = natStr (o + 1) := by
  unfold pyRStrip
  rw [show (String.mk (natDigits (o + 1) ++ ['t', 'o'])).toList =
      natDigits (o + 1) ++ ['t', 'o'] from rfl]
  rw [List.reverse_append]
  rw [show (['t', 'o'] : List Char).reverse = ['o', 't'] from rfl]
  rw [dropWhile_app _ _ _ (by decide)]
  cases hrev : (natDigits (o + 1)).reverse with
  | nil =>
    exact absurd (List.reverse_eq_nil_iff.mp hrev) (natDigits_ne_nil (o + 1))
  | cons c cs =>
    have hcm : c ∈ natDigits (o + 1) := by
      rw [← List.mem_reverse, hrev]
      exact List.mem_cons_self c cs
    have hcd : c.isDigit = true := natDigits_digit (o + 1) c hcm
    have hfalse : (decide (c ∈ "to".toList)) = false :=
      decide_eq_false (digit_not_mem c _ hcd (by decide))
    rw [dropWhile_cons_eq, hfalse]
    simp only [Bool.false_eq_true, if_false]
    rw [← hrev, List.reverse_reverse]
    rfl

theorem linkKey_strip (o : Nat) :
    pyRStrip "to" (pyLStrip "link" ("link" ++ natStr (o + 1) ++ "to")) = natStr (o + 1) := by
  rw [lstrip_linkKey o, rstrip_linkTail o]

theorem guiApplyOne_self (g : GuiState) (o : Nat) (l : Option Nat)
    (hget : g.links.get? o = some l) :
    guiApplyOne g ("link" ++ natStr (o + 1) ++ "to")
      (CV.str (match l with | none => "0" | some t => natStr (t + 1))) = some g := by
  have holen : o < g.links.length := (List.get?_eq_some.mp hget).1
  have hidx : ((o + 1 : Nat) : Int) - 1 = (o : Int) := by push_cast; ring
  unfold guiApplyOne
  rw [linkKey_strip o, pyInt_natStr (o + 1)]
  cases l with
  | none =>
    show (cvToInt (CV.str "0")).bind (fun toI =>
        if toI - 1 < 0 then
          (pySetIdx g.links (((o + 1 : Nat) : Int) - 1) none).map
            (fun l2 => { g with links := l2 })
        else
          (pySetIdx g.links (((o + 1 : Nat) : Int) - 1) (some (toI - 1).toNat)).map
            (fun l2 => { g with links := l2 })) = some g
    rw [show cvToInt (CV.str "0") = some 0 from by decide]
    show (if (0 : Int) - 1 < 0 then
        (pySetIdx g.links (((o + 1 : Nat) : Int) - 1) none).map
          (fun l2 => { g with links := l2 })
      else
        (pySetIdx g.links (((o + 1 : Nat) : Int) - 1) (some ((0 : Int) - 1).toNat)).map
          (fun l2 => { g with links := l2 })) = some g
    rw [if_pos (by omega), hidx, pySetIdx_coe, if_pos holen]
    show some { g with links := g.links.set o none } = some g
    rw [list_set_self g.links o none hget]
  | some t =>
    show (cvToInt (CV.str (natStr (t + 1)))).bind (fun toI =>
        if toI - 1 < 0 then
          (pySetIdx g.links (((o + 1 : Nat) : Int) - 1) none).map
            (fun l2 => { g with links := l2 })
        else
          (pySetIdx g.links (((o + 1 : Nat) : Int) - 1) (some (toI - 1).toNat)).map
            (fun l2 => { g with links := l2 })) = some g
    rw [show cvToInt (CV.str (natStr (t + 1))) = pyInt (natStr (t + 1)) from rfl]
    rw [pyInt_natStr (t + 1)]
    show (if ((t + 1 : Nat) : Int) - 1 < 0 then
        (pySetIdx g.links (((o + 1 : Nat) : Int) - 1) none).map
          (fun l2 => { g with links := l2 })
      else
        (pySetIdx g.links (((o + 1 : Nat) : Int) - 1)
            (some (((t + 1 : Nat) : Int) - 1).toNat)).map
          (fun l2 => { g with links := l2 })) = some g
    have hidt : ((t + 1 : Nat) : Int) - 1 = (t : Int) := by push_cast; ring
    rw [if_neg (by omega), hidx, hidt, Int.toNat_natCast, pySetIdx_coe, if_pos holen]
    show some { g with links := g.links.set o (some t) } = some g
    rw [list_set_self g.links o (some t) hget]

theorem applyGuiKeys_fix (g : GuiState) (sec : List (String × CV))
    (h : ∀ p ∈ sec, guiApplyOne g p.1 p.2 = some g) :
    applyGuiKeys g sec = some g := by
  induction sec with
  | nil => rfl
  | cons p rest ih =>
    cases p with
    | mk k v =>
      show (guiApplyOne g k v).bind (fun g2 => applyGuiKeys g2 rest) = some g
      rw [h (k, v) (List.mem_cons_self _ _)]
      exact ih (fun q hq => h q (List.mem_cons_of_mem _ hq))

theorem encodeLinks_mem (ls : List (Option Nat)) (o0 : Nat) (p : String × CV)
    (hp : p ∈ encodeLinks o0 ls) :
    ∃ j l, ls.get? j = some l ∧
      p = ("link" ++ natStr (o0 + j + 1) ++ "to",
           CV.str (match l with | none => "0" | some t => natStr (t + 1))) := by
  induction ls generalizing o0 with
  | nil => cases hp
  | cons l rest ih =>
    rcases List.mem_cons.mp hp with h1 | h2
    · refine ⟨0, l, rfl, ?_⟩
      rw [h1]
    · obtain ⟨j, l', hg, hpe⟩ := ih (o0 + 1) h2
      refine ⟨j + 1, l', hg, ?_⟩
      rw [hpe]
      have harith : o0 + 1 + j + 1 = o0 + (j + 1) + 1 := by omega
      rw [harith]

theorem applyGuiKeys_encode (g : GuiState) : applyGuiKeys g (Gui.GetConfigDict g) = some g := by
  apply applyGuiKeys_fix
  intro p hp
  obtain ⟨j, l, hget, hpe⟩ := encodeLinks_mem g.links 0 p hp
  subst hpe
  cases l with
  | none =>
    show guiApplyOne g ("link" ++ natStr (0 + j + 1) ++ "to") (CV.str "0") = some g
    rw [Nat.zero_add]
    exact guiApplyOne_self g j none hget
  | some t =>
    show guiApplyOne g ("link" ++ natStr (0 + j + 1) ++ "to")
        (CV.str (natStr (t + 1))) = some g
    rw [Nat.zero_add]
    exact guiApplyOne_self g j (some t) hget

/-! ### Round trip of the route sections -/

theorem applyRouteKeysGo_fix (dig : Bool) (st : MixerState) (sec : List (String × CV))
    (h : ∀ p ∈ sec, ∃ io nv, parseRouteKey (if dig then "din" else "ain") p.1 = some io ∧
         cvToInt p.2 = some nv ∧ Mixer.SetVolume st nv io.2 io.1 dig = some st) :
    ∃ ch, applyRouteKeysGo dig st sec = some (st, ch) := by
  induction sec with
  | nil => exact ⟨[], rfl⟩
  | cons p rest ih =>
    obtain ⟨io, nv, h1, h2, h3⟩ := h p (List.mem_cons_self _ _)
    obtain ⟨ch, hch⟩ := ih (fun q hq => h q (List.mem_cons_of_mem _ hq))
    cases p with
    | mk k v =>
      refine ⟨(io.2, io.1) :: ch, ?_⟩
      show (parseRouteKey (if dig then "din" else "ain") k).bind (fun io' =>
          (cvToInt v).bind (fun nv' =>
            (Mixer.SetVolume st nv' io'.2 io'.1 dig).bind (fun st2 =>
              (applyRouteKeysGo dig st2 rest).bind (fun r =>
                some (r.1, (io'.2, io'.1) :: r.2))))) = some (st, (io.2, io.1) :: ch)
      rw [h1]
      simp only [Option.some_bind]
      rw [h2]
      simp only [Option.some_bind]
      rw [h3]
      simp only [Option.some_bind]
      rw [hch]
      simp only [Option.some_bind]

theorem encodeAnalogCells_mem (o i0 : Nat) (row : List Int) (p : String × CV)
    (hp : p ∈ encodeAnalogCells o i0 row) :
    ∃ j v, row.get? j = some v ∧ p = (routeKey "ain" (i0 + j) o, CV.num v) := by
  induction row generalizing i0 with
  | nil => cases hp
  | cons w rest ih =>
    rcases List.mem_cons.mp hp with h1 | h2
    · refine ⟨0, w, rfl, ?_⟩
      rw [h1, Nat.add_zero]
    · obtain ⟨j, v, hg, hpe⟩ := ih (i0 + 1) h2
      refine ⟨j + 1, v, hg, ?_⟩
      rw [hpe]
      have : i0 + 1 + j = i0 + (j + 1) := by omega
      rw [this]

theorem encodeAnalogRows_mem (o0 : Nat) (rows : List (List Int)) (p : String × CV)
    (hp : p ∈ encodeAnalogRows o0 rows) :
    ∃ j row, rows.get? j = some row ∧ p ∈ encodeAnalogCells (o0 + j) 0 row := by
  induction rows generalizing o0 with
  | nil => cases hp
  | cons row rest ih =>
    rcases List.mem_append.mp hp with h1 | h2
    · exact ⟨0, row, rfl, by rw [Nat.add_zero]; exact h1⟩
    · obtain ⟨j, row', hg, hmem⟩ := ih (o0 + 1) h2
      refine ⟨j + 1, row', hg, ?_⟩
      have : o0 + 1 + j = o0 + (j + 1) := by omega
      rw [← this]
      exact hmem

theorem get?_exists (l : List α) (n : Nat) (h : n < l.length) : ∃ a, l.get? n = some a := by
  induction l generalizing n with
  | nil => simp at h
  | cons x xs ih =>
    cases n with
    | zero => exact ⟨x, rfl⟩
    | succ m => exact ih m (by simpa using h)

theorem encodeDigitalCells_spec (st : MixerState) (o : Nat) (drow : List Int)
    (hdrow : st.digital.get? o = some drow) :
    ∀ k i0, i0 + k ≤ drow.length →
    ∃ cells, encodeDigitalCells st o i0 k = some cells ∧
      ∀ p ∈ cells, ∃ i v, drow.get? i = some v ∧ p = (routeKey "din" i o, CV.num v) := by
  intro k
  induction k with
  | zero =>
    intro i0 _
    exact ⟨[], rfl, fun p hp => absurd hp (List.not_mem_nil p)⟩
  | succ m ih =>
    intro i0 hle
    obtain ⟨v, hv⟩ := get?_exists drow i0 (by omega)
    have hgv : Mixer.GetVolume st (o : Int) (i0 : Int) true = some v := by
      rw [getVolume_nat]
      show (st.digital.get? o).bind (fun row => row.get? i0) = some v
      rw [hdrow]
      exact hv
    obtain ⟨cells, hc, hmem⟩ := ih (i0 + 1) (by omega)
    refine ⟨(routeKey "din" i0 o, CV.num v) :: cells, ?_, ?_⟩
    · show (Mixer.GetVolume st (o : Int) (i0 : Int) true).bind (fun v' =>
          (encodeDigitalCells st o (i0 + 1) m).bind (fun rest =>
            some ((routeKey "din" i0 o, CV.num v') :: rest))) = _
      rw [hgv]
      simp only [Option.some_bind]
      rw [hc]
      simp only [Option.some_bind]
    · intro p hp
      rcases List.mem_cons.mp hp with h1 | h2
      · exact ⟨i0, v, hv, h1⟩
      · exact hmem p h2

theorem encodeDigitalRows_spec (st : MixerState)
    (hlen : st.digital.length ≤ st.analog.length)
    (hrowlen : ∀ o arow drow, st.analog.get? o = some arow →
      st.digital.get? o = some drow → arow.length ≤ drow.length) :
    ∀ rows o0, st.digital.drop o0 = rows →
    ∃ sec, encodeDigitalRows st o0 rows = some sec ∧
      ∀ p ∈ sec, ∃ o drow i v, st.digital.get? o = some drow ∧ drow.get? i = some v ∧
        p = (routeKey "din" i o, CV.num v) := by
  intro rows
  induction rows with
  | nil =>
    intro o0 _
    exact ⟨[], rfl, fun p hp => absurd hp (List.not_mem_nil p)⟩
  | cons drow rest ih =>
    intro o0 hdrop
    obtain ⟨hget, hdrop2⟩ := drop_cons_step st.digital o0 drow rest hdrop
    have ho0 : o0 < st.digital.length := (List.get?_eq_some.mp hget).1
    obtain ⟨arow, harow⟩ := get?_exists st.analog o0 (by omega)
    have hcount : arow.length ≤ drow.length := hrowlen o0 arow drow harow hget
    obtain ⟨cells, hcells, hcmem⟩ :=
      encodeDigitalCells_spec st o0 drow hget arow.length 0 (by omega)
    obtain ⟨more, hmore, hmmem⟩ := ih (o0 + 1) hdrop2
    refine ⟨cells ++ more, ?_, ?_⟩
    · show (st.analog.get? o0).bind (fun arow' =>
          (encodeDigitalCells st o0 0 arow'.length).bind (fun cells' =>
            (encodeDigitalRows st (o0 + 1) rest).bind (fun more' =>
              some (cells' ++ more')))) = _
      rw [harow]
      simp only [Option.some_bind]
      rw [hcells]
      simp only [Option.some_bind]
      rw [hmore]
      simp only [Option.some_bind]
    · intro p hp
      rcases List.mem_append.mp hp with h1 | h2
      · obtain ⟨i, v, hv, hpe⟩ := hcmem p h1
        exact ⟨o0, drow, i, v, hget, hv, hpe⟩
      · exact hmmem p h2

/-! ### Effects-control lemmas -/

theorem lookup_encodeEffects (fx : List FxControl) (c : FxControl)
    (hnodup : (fx.map (fun c' => normalizeName c'.name)).Nodup) (hc : c ∈ fx) :
    lookupKV (encodeEffects fx) (normalizeName c.name) = some (fxDump c) := by
  induction fx with
  | nil => cases hc
  | cons c' rest ih =>
    simp only [List.map_cons, List.nodup_cons] at hnodup
    rcases List.mem_cons.mp hc with h1 | h2
    · subst h1
      show (if normalizeName c.name = normalizeName c.name then some (fxDump c)
            else lookupKV (encodeEffects rest) (normalizeName c.name)) = some (fxDump c)
      rw [if_pos rfl]
    · have hne : normalizeName c'.name ≠ normalizeName c.name := by
        intro he
        exact hnodup.1 (he ▸ List.mem_map_of_mem (fun x => normalizeName x.name) h2)
      show (if normalizeName c'.name = normalizeName c.name then some (fxDump c')
            else lookupKV (encodeEffects rest) (normalizeName c.name)) = some (fxDump c)
      rw [if_neg hne]
      exact ih hnodup.2 h2

theorem findFx_first (fx : List FxControl) (c : FxControl)
    (hnames : (fx.map FxControl.name).Nodup) (hc : c ∈ fx) :
    findFx fx c.name = some c := by
  induction fx with
  | nil => cases hc
  | cons c' rest ih =>
    simp only [List.map_cons, List.nodup_cons] at hnames
    rcases List.mem_cons.mp hc with h1 | h2
    · subst h1
      show (if c.name = c.name then some c else findFx rest c.name) = some c
      rw [if_pos rfl]
    · have hne : c'.name ≠ c.name := by
        intro he
        exact hnames.1 (he ▸ List.mem_map_of_mem FxControl.name h2)
      show (if c'.name = c.name then some c' else findFx rest c.name) = some c
      rw [if_neg hne]
      exact ih hnames.2 h2

theorem setFxVol_self (fx : List FxControl) (nm : String) (v : Int)
    (hnames : (fx.map FxControl.name).Nodup)
    (hc : (⟨nm, FxKind.linear v⟩ : FxControl) ∈ fx) :
    setFxVol fx nm v = fx := by
  induction fx with
  | nil => rfl
  | cons c' rest ih =>
    simp only [List.map_cons, List.nodup_cons] at hnames
    rcases List.mem_cons.mp hc with h1 | h2
    · rw [← h1]
      show (if nm = nm then _ else _) = _
      rw [if_pos rfl]
    · have hne : c'.name ≠ nm := by
        intro he
        exact hnames.1 (by
          have : (⟨nm, FxKind.linear v⟩ : FxControl).name ∈ rest.map FxControl.name :=
            List.mem_map_of_mem FxControl.name h2
          rw [← he] at this
          exact this)
      show (if c'.name = nm then _ else c' :: setFxVol rest nm v) = c' :: rest
      rw [if_neg hne, ih hnames.2 h2]

theorem setFxSel_self (fx : List FxControl) (nm sel : String) (items : List String)
    (hnames : (fx.map FxControl.name).Nodup)
    (hc : (⟨nm, FxKind.enum sel items⟩ : FxControl) ∈ fx) :
    setFxSel fx nm sel = fx := by
  induction fx with
  | nil => rfl
  | cons c' rest ih =>
    simp only [List.map_cons, List.nodup_cons] at hnames
    rcases List.mem_cons.mp hc with h1 | h2
    · rw [← h1]
      show (if nm = nm then _ else _) = _
      rw [if_pos rfl]
    · have hne : c'.name ≠ nm := by
        intro he
        exact hnames.1 (by
          have : (⟨nm, FxKind.enum sel items⟩ : FxControl).name ∈ rest.map FxControl.name :=
            List.mem_map_of_mem FxControl.name h2
          rw [← he] at this
          exact this)
      show (if c'.name = nm then _ else c' :: setFxSel rest nm sel) = c' :: rest
      rw [if_neg hne, ih hnames.2 h2]

theorem names_nodup_of_cnames (fx : List FxControl)
    (hnodup : (fx.map (fun c' => normalizeName c'.name)).Nodup) :
    (fx.map FxControl.name).Nodup := by
  have h2 : ((fx.map FxControl.name).map normalizeName).Nodup := by
    rw [List.map_map]
    exact hnodup
  exact List.Nodup.of_map normalizeName h2

theorem effApplyOne_encode (st : MixerState) (c : FxControl)
    (hnodup : (st.fx.map (fun c' => normalizeName c'.name)).Nodup)
    (hsel : selOk c = true) (hc : c ∈ st.fx) :
    effApplyOne (encodeEffects st.fx) st c.name = some st := by
  have hnames := names_nodup_of_cnames st.fx hnodup
  have hl := lookup_encodeEffects st.fx c hnodup hc
  have hf := findFx_first st.fx c hnames hc
  obtain ⟨nm, kd⟩ := c
  dsimp only at hl hf hsel ⊢
  unfold effApplyOne
  rw [hl]
  dsimp only
  rw [hf]
  dsimp only
  cases kd with
  | linear v =>
    dsimp only
    rw [show fxDump ⟨nm, FxKind.linear v⟩ = CV.num v from rfl]
    show some { st with fx := setFxVol st.fx nm v } = some st
    rw [setFxVol_self st.fx nm v hnames hc]
  | enum sel items =>
    have hmem : sel ∈ items := of_decide_eq_true hsel
    dsimp only
    rw [show fxDump ⟨nm, FxKind.enum sel items⟩ = CV.str sel from rfl]
    show (if sel ∈ items then some { st with fx := setFxSel st.fx nm sel } else some st) = some st
    rw [if_pos hmem, setFxSel_self st.fx nm sel items hnames hc]

theorem applyEffectsGo_fix (eff : List (String × CV)) (ns : List String) (st : MixerState)
    (h : ∀ n ∈ ns, effApplyOne eff st n = some st) :
    applyEffectsGo eff ns st = some st := by
  induction ns with
  | nil => rfl
  | cons n rest ih =>
    show (effApplyOne eff st n).bind (applyEffectsGo eff rest) = some st
    rw [h n (List.mem_cons_self _ _)]
    simp only [Option.some_bind]
    exact ih (fun m hm => h m (List.mem_cons_of_mem _ hm))

theorem applyEffectsGo_encode (st : MixerState)
    (hnodup : (st.fx.map (fun c' => normalizeName c'.name)).Nodup)
    (hsel : ∀ c ∈ st.fx, selOk c = true) :
    applyEffectsGo (encodeEffects st.fx) (st.fx.map (fun c => c.name)) st = some st := by
  apply applyEffectsGo_fix
  intro n hn
  obtain ⟨c, hc, hce⟩ := List.mem_map.mp hn
  rw [← hce]
  exact effApplyOne_encode st c hnodup (hsel c hc) hc

/-! ### Assembling the codec round trip -/

theorem lookupKV_cons_pos {α} (k : String) (v : α) (rest : List (String × α)) :
    lookupKV ((k, v) :: rest) k = some v := by
  show (if k = k then some v else lookupKV rest k) = some v
  rw [if_pos rfl]

theorem lookupKV_cons_neg {α} (k k' : String) (v : α) (rest : List (String × α)) (h : k' ≠ k) :
    lookupKV ((k', v) :: rest) k = lookupKV rest k := by
  show (if k' = k then some v else lookupKV rest k) = lookupKV rest k
  rw [if_neg h]

theorem sectionApply_none (dig : Bool) (st : MixerState) :
    sectionApply dig st none = some (st, []) := rfl

theorem sectionApply_some (dig : Bool) (st : MixerState) (sec : List (String × CV)) :
    sectionApply dig st (some sec) = applyRouteKeysGo dig st sec := rfl

theorem effectsApply_none (st : MixerState) : effectsApply st none = some st := rfl

theorem effectsApply_some (st : MixerState) (sec : List (String × CV)) :
    effectsApply st (some sec) = applyEffectsGo sec (st.fx.map (fun c => c.name)) st := rfl

theorem applyRouteKeysGo_encodeAnalog (st : MixerState) :
    ∃ ch, applyRouteKeysGo false st (encodeAnalogRows 0 st.analog) = some (st, ch) := by
  apply applyRouteKeysGo_fix
  intro p hp
  obtain ⟨j, row, hrow, hmem⟩ := encodeAnalogRows_mem 0 st.analog p hp
  rw [Nat.zero_add] at hmem
  obtain ⟨i, v, hv, hpe⟩ := encodeAnalogCells_mem j 0 row p hmem
  rw [Nat.zero_add] at hpe
  refine ⟨((i : Int), (j : Int)), v, ?_, ?_, ?_⟩
  · rw [hpe]
    show parseRouteKey "ain" (routeKey "ain" i j) = some ((i : Int), (j : Int))
    exact parseRouteKey_routeKey "ain" 'a' "in".toList rfl (by decide) (by decide) i j
  · rw [hpe]
    rfl
  · show Mixer.SetVolume st v (j : Int) (i : Int) false = some st
    exact setVolume_self_analog st j i row v hrow hv

theorem applyRouteKeysGo_encodeDigital (st : MixerState) (sec : List (String × CV))
    (hsec : ∀ p ∈ sec, ∃ o drow i v, st.digital.get? o = some drow ∧ drow.get? i = some v ∧
        p = (routeKey "din" i o, CV.num v)) :
    ∃ ch, applyRouteKeysGo true st sec = some (st, ch) := by
  apply applyRouteKeysGo_fix
  intro p hp
  obtain ⟨o, drow, i, v, hrow, hv, hpe⟩ := hsec p hp
  refine ⟨((i : Int), (o : Int)), v, ?_, ?_, ?_⟩
  · rw [hpe]
    show parseRouteKey "din" (routeKey "din" i o) = some ((i : Int), (o : Int))
    exact parseRouteKey_routeKey "din" 'd' "in".toList rfl (by decide) (by decide) i o
  · rw [hpe]
    rfl
  · show Mixer.SetVolume st v (o : Int) (i : Int) true = some st
    exact setVolume_self_digital st o i drow v hrow hv

theorem mixerParse_encode (st : MixerState) (gsec : List (String × CV))
    (hlen : st.digital.length ≤ st.analog.length)
    (hrowlen : ∀ o arow drow, st.analog.get? o = some arow →
      st.digital.get? o = some drow → arow.length ≤ drow.length)
    (hnodup : (st.fx.map (fun c' => normalizeName c'.name)).Nodup)
    (hsel : ∀ c ∈ st.fx, selOk c = true) :
    ∃ dsec ca cd, encodeDigitalRows st 0 st.digital = some dsec ∧
      Mixer.ParseConfigDict st
        [("Analog", encodeAnalogRows 0 st.analog), ("Digital", dsec),
         ("Effects", encodeEffects st.fx), ("GUI", gsec)] =
        some ({ st with log := st.log ++ List.replicate st.obs (ca, cd) }, ca, cd) := by
  obtain ⟨dsec, hdsec, hdmem⟩ := encodeDigitalRows_spec st hlen hrowlen st.digital 0 rfl
  obtain ⟨ca, hca⟩ := applyRouteKeysGo_encodeAnalog st
  obtain ⟨cd, hcd⟩ := applyRouteKeysGo_encodeDigital st dsec hdmem
  have heff := applyEffectsGo_encode st hnodup hsel
  refine ⟨dsec, ca, cd, hdsec, ?_⟩
  unfold Mixer.ParseConfigDict
  rw [lookupKV_cons_pos, sectionApply_some, hca]
  simp only [Option.some_bind]
  rw [lookupKV_cons_neg _ _ _ _ (by decide), lookupKV_cons_pos, sectionApply_some, hcd]
  simp only [Option.some_bind]
  rw [lookupKV_cons_neg _ _ _ _ (by decide), lookupKV_cons_neg _ _ _ _ (by decide),
      lookupKV_cons_pos, effectsApply_some, heff]
  simp only [Option.some_bind]

theorem guiParse_encode (g : GuiState) (a b c : List (String × CV)) :
    Gui.ParseConfigDict g
      [("Analog", a), ("Digital", b), ("Effects", c), ("GUI", Gui.GetConfigDict g)] =
      some g := by
  unfold Gui.ParseConfigDict
  rw [lookupKV_cons_neg _ _ _ _ (by decide), lookupKV_cons_neg _ _ _ _ (by decide),
      lookupKV_cons_neg _ _ _ _ (by decide), lookupKV_cons_pos]
  dsimp only
  exact applyGuiKeys_encode g

theorem getD_of_get? (l : List α) (n : Nat) (a d : α) (h : l.get? n = some a) :
    l.getD n d = a := by
  induction l generalizing n with
  | nil => exact Option.noConfusion h
  | cons x xs ih =>
    cases n with
    | zero =>
      have h0 : some x = some a := h
      cases h0
      rfl
    | succ m => exact ih m h

theorem getConfigDict_eq (st : MixerState) (dsec : List (String × CV))
    (h : encodeDigitalRows st 0 st.digital = some dsec) :
    Mixer.GetConfigDict st =
      some [("Analog", encodeAnalogRows 0 st.analog), ("Digital", dsec),
            ("Effects", encodeEffects st.fx)] := by
  unfold Mixer.GetConfigDict
  rw [h]
  rfl

/-- C1: round trip of the configuration codec. For every reachable
matrix/link state — the analog and digital matrices cover the same routes
(with at least the analog width per digital row, which is what the encoder's
`len(self.__analog_routes[o])` iteration requires), effects controls have
distinct normalised names and every enumerated control's current selection is
among its items — decoding (`Mixer.ParseConfigDict` followed by
`Gui.ParseConfigDict`, as `Config.Load` does) the encoding
(`Mixer.GetConfigDict` merged with `Gui.GetConfigDict`, as `Config.Save`
does) restores exactly the same matrix, effects and link state. -/
theorem C1_config_roundtrip (st : MixerState) (g : GuiState)
    (hlen : st.digital.length ≤ st.analog.length)
    (hrowlen : ∀ o, o < st.digital.length →
      (st.analog.getD o []).length ≤ (st.digital.getD o []).length)
    (hnodup : (st.fx.map (fun c' => normalizeName c'.name)).Nodup)
    (hsel : ∀ c ∈ st.fx, selOk c = true) :
    ∃ d st2, encodeAll st g = some d ∧ decodeAll st g d = some (st2, g) ∧
      st2.analog = st.analog ∧ st2.digital = st.digital ∧ st2.fx = st.fx ∧
      st2.obs = st.obs := by
  have hrowlen' : ∀ o arow drow, st.analog.get? o = some arow →
      st.digital.get? o = some drow → arow.length ≤ drow.length := by
    intro o arow drow h1 h2
    have ho : o < st.digital.length := (List.get?_eq_some.mp h2).1
    have hb := hrowlen o ho
    rw [getD_of_get? st.analog o arow [] h1, getD_of_get? st.digital o drow [] h2] at hb
    exact hb
  obtain ⟨dsec, ca, cd, hdsec, hparse⟩ :=
    mixerParse_encode st (Gui.GetConfigDict g) hlen hrowlen' hnodup hsel
  have hGCD := getConfigDict_eq st dsec hdsec
  refine ⟨[("Analog", encodeAnalogRows 0 st.analog), ("Digital", dsec),
      ("Effects", encodeEffects st.fx), ("GUI", Gui.GetConfigDict g)],
    { st with log := st.log ++ List.replicate st.obs (ca, cd) }, ?_, ?_, rfl, rfl, rfl, rfl⟩
  · unfold encodeAll
    rw [hGCD]
    rfl
  · unfold decodeAll
    rw [hparse]
    simp only [Option.bind_eq_bind, Option.some_bind]
    rw [guiParse_encode g _ _ _]
    simp only [Option.bind_eq_bind, Option.some_bind]
    rfl

/-- Concrete reachable state for the round-trip witness: a 2-channel matrix
pair, one linear effect, one enumerated effect, and a non-default link. -/
def stW1 : MixerState :=
  { analog := [[3, 4], [5, 6]],
    digital := [[7, 8], [9, 10]],
    fx := [⟨"EQ Level", FxKind.linear 42⟩,
           ⟨"Reverb Type", FxKind.enum "Hall" ["Room", "Hall"]⟩],
    obs := 1,
    log := [] }

def gW1 : GuiState :=
  { sliders := [[3, 4], [5, 6]],
    links := [some 1, none] }

theorem C1_config_roundtrip_witness :
    ∃ d st2, encodeAll stW1 gW1 = some d ∧ decodeAll stW1 gW1 d = some (st2, gW1) ∧
      st2.analog = stW1.analog ∧ st2.digital = stW1.digital ∧ st2.fx = stW1.fx ∧
      st2.obs = stW1.obs :=
  C1_config_roundtrip stW1 gW1 (by decide) (by decide) (by decide) (by decide)

/-! ### Python indexing semantics (out of range and negative wrap) -/

theorem pyIdx_out (l : List α) (o : Int)
    (h : (l.length : Int) ≤ o ∨ o < -(l.length : Int)) : pyIdx l o = none := by
  unfold pyIdx pyNorm
  rcases h with h1 | h2
  · rw [if_pos (by omega), if_neg (by omega)]
    rfl
  · rw [if_neg (by omega), if_neg (by omega)]
    rfl

theorem pyIdx_neg (l : List α) (o : Int) (h1 : -(l.length : Int) ≤ o) (h2 : o < 0) :
    pyIdx l o = pyIdx l (o + l.length) := by
  have e1 : pyNorm l.length o = some (o + (l.length : Int)).toNat := by
    unfold pyNorm
    rw [if_neg (by omega), if_pos (by omega)]
  have e2 : pyNorm l.length (o + (l.length : Int)) = some (o + (l.length : Int)).toNat := by
    unfold pyNorm
    rw [if_pos (by omega), if_pos (by omega)]
  unfold pyIdx
  rw [e1, e2]

/-- C2 counterexample: with one analog route whose control holds 10, calling
`SetVolume(150, 0, 0)` does not fail with any `InvalidValue` error: it
succeeds, handing the out-of-range value 150 to the backing control (the
source performs no range check before `setvolume(value, 0)`). -/
theorem C2_setvolume_counterexample :
    Mixer.SetVolume { analog := [[10]], digital := [], fx := [], obs := 0, log := [] }
        150 0 0 false =
      some { analog := [[150]], digital := [], fx := [], obs := 0, log := [] } := by
  decide

/-- C2 amended: `SetVolume` performs no range validation and never clamps:
for every value `v` — inside or outside `[0, 100]` — and every valid route
`(o, i, domain)`, in the analog branch (L112) as well as the digital branch
(L110), it forwards `v` unchanged to the backing control of that route (the
control's stored volume becomes exactly `v`); any rejection of out-of-range
values is the backing library's, not this method's. -/
theorem C2_setvolume_forwards (st : MixerState) (v : Int) (o i : Nat) (dig : Bool)
    (row : List Int)
    (hrow : (if dig then st.digital else st.analog).get? o = some row)
    (hi : i < row.length) :
    Mixer.SetVolume st v (o : Int) (i : Int) dig =
      some (if dig then { st with digital := st.digital.set o (row.set i v) }
            else { st with analog := st.analog.set o (row.set i v) }) := by
  cases dig with
  | false => exact setVolume_nat_analog st v o i row hrow hi
  | true => exact setVolume_nat_digital st v o i row hrow hi

def stW2 : MixerState :=
  { analog := [[10]], digital := [[20]], fx := [], obs := 0, log := [] }

theorem C2_setvolume_forwards_witness :
    Mixer.SetVolume stW2 150 0 0 false =
      some { stW2 with analog := stW2.analog.set 0 ([10].set 0 150) } ∧
    Mixer.SetVolume stW2 150 0 0 true =
      some { stW2 with digital := stW2.digital.set 0 ([20].set 0 150) } :=
  ⟨C2_setvolume_forwards stW2 150 0 0 false [10] rfl (by decide),
   C2_setvolume_forwards stW2 150 0 0 true [20] rfl (by decide)⟩

/-- C9 counterexample: on a 2-channel matrix holding volume 20 at route
`(1, 0)`, `GetVolume(-1, 0)` does not fail with `IndexOutOfRange`: Python's
negative indexing wraps around and the call returns 20, the volume of the
other route `(1, 0)`. -/
theorem C9_getvolume_counterexample :
    Mixer.GetVolume
      { analog := [[10, 11], [20, 21]], digital := [], fx := [], obs := 0, log := [] }
      (-1) 0 false = some 20 := by
  decide

/-- C9 amended: `GetVolume` fails (with `IndexError`) exactly when an index
falls outside `[-count, count)`; an output index `o` with
`-count ≤ o < 0` is interpreted Python-style as `count + o` and returns that
other route's volume (and likewise for the input index within a row); indices
at or beyond the channel count fail. -/
theorem C9_getvolume_indexing (st : MixerState) (dig : Bool) (o i : Int) :
    (((if dig then st.digital else st.analog).length : Int) ≤ o ∨
        o < -((if dig then st.digital else st.analog).length : Int) →
      Mixer.GetVolume st o i dig = none) ∧
    (-((if dig then st.digital else st.analog).length : Int) ≤ o → o < 0 →
      Mixer.GetVolume st o i dig =
        Mixer.GetVolume st (o + ((if dig then st.digital else st.analog).length : Int)) i dig) ∧
    (∀ row : List Int, pyIdx (if dig then st.digital else st.analog) o = some row →
      (((row.length : Int) ≤ i ∨ i < -(row.length : Int)) →
        Mixer.GetVolume st o i dig = none) ∧
      (-(row.length : Int) ≤ i → i < 0 →
        Mixer.GetVolume st o i dig = Mixer.GetVolume st o (i + (row.length : Int)) dig)) := by
  cases dig with
  | false =>
    refine ⟨?_, ?_, ?_⟩
    · intro h
      show (pyIdx st.analog o).bind (fun row => pyIdx row i) = none
      rw [pyIdx_out st.analog o (by simpa using h)]
      rfl
    · intro h1 h2
      show (pyIdx st.analog o).bind (fun row => pyIdx row i) =
        (pyIdx st.analog (o + (st.analog.length : Int))).bind (fun row => pyIdx row i)
      rw [pyIdx_neg st.analog o (by simpa using h1) h2]
    · intro row hrow
      have hrow' : pyIdx st.analog o = some row := by simpa using hrow
      constructor
      · intro h
        show (pyIdx st.analog o).bind (fun r => pyIdx r i) = none
        rw [hrow']
        show pyIdx row i = none
        exact pyIdx_out row i h
      · intro h1 h2
        show (pyIdx st.analog o).bind (fun r => pyIdx r i) =
          (pyIdx st.analog o).bind (fun r => pyIdx r (i + (row.length : Int)))
        rw [hrow']
        show pyIdx row i = pyIdx row (i + (row.length : Int))
        exact pyIdx_neg row i h1 h2
  | true =>
    refine ⟨?_, ?_, ?_⟩
    · intro h
      show (pyIdx st.digital o).bind (fun row => pyIdx row i) = none
      rw [pyIdx_out st.digital o (by simpa using h)]
      rfl
    · intro h1 h2
      show (pyIdx st.digital o).bind (fun row => pyIdx row i) =
        (pyIdx st.digital (o + (st.digital.length : Int))).bind (fun row => pyIdx row i)
      rw [pyIdx_neg st.digital o (by simpa using h1) h2]
    · intro row hrow
      have hrow' : pyIdx st.digital o = some row := by simpa using hrow
      constructor
      · intro h
        show (pyIdx st.digital o).bind (fun r => pyIdx r i) = none
        rw [hrow']
        show pyIdx row i = none
        exact pyIdx_out row i h
      · intro h1 h2
        show (pyIdx st.digital o).bind (fun r => pyIdx r i) =
          (pyIdx st.digital o).bind (fun r => pyIdx r (i + (row.length : Int)))
        rw [hrow']
        show pyIdx row i = pyIdx row (i + (row.length : Int))
        exact pyIdx_neg row i h1 h2

def stW9 : MixerState :=
  { analog := [[10, 11], [20, 21]], digital := [], fx := [], obs := 0, log := [] }

theorem C9_getvolume_indexing_witness :
    Mixer.GetVolume stW9 5 0 false = none ∧
    Mixer.GetVolume stW9 (-1) 0 false =
      Mixer.GetVolume stW9 (-1 + ((2 : Nat) : Int)) 0 false :=
  ⟨(C9_getvolume_indexing stW9 false 5 0).1 (by decide),
   (C9_getvolume_indexing stW9 false (-1) 0).2.1 (by decide) (by decide)⟩

/-! ### MuteMostDigitalRoutes -/

theorem muteCells_get? (o i0 : Nat) (row : List Int) (i : Nat) :
    (muteDigitalCells o i0 row).get? i =
      (row.get? i).map (fun v => if o = i0 + i then v else 0) := by
  induction row generalizing i0 i with
  | nil => rfl
  | cons v rest ih =>
    cases i with
    | zero =>
      show some (if o ≠ i0 then 0 else v) = some (if o = i0 + 0 then v else 0)
      rw [Nat.add_zero]
      by_cases h : o = i0
      · rw [if_neg (by simp [h]), if_pos h]
      · rw [if_pos h, if_neg h]
    | succ m =>
      show (muteDigitalCells o (i0 + 1) rest).get? m =
        (rest.get? m).map (fun v => if o = i0 + (m + 1) then v else 0)
      rw [ih (i0 + 1) m]
      have harith : i0 + 1 + m = i0 + (m + 1) := by omega
      rw [harith]

theorem muteRows_get? (o0 : Nat) (rows : List (List Int)) (o : Nat) :
    (muteDigitalRows o0 rows).get? o = (rows.get? o).map (muteDigitalCells (o0 + o) 0) := by
  induction rows generalizing o0 o with
  | nil => rfl
  | cons row rest ih =>
    cases o with
    | zero =>
      show some (muteDigitalCells o0 0 row) = some (muteDigitalCells (o0 + 0) 0 row)
      rw [Nat.add_zero]
    | succ m =>
      show (muteDigitalRows (o0 + 1) rest).get? m =
        (rest.get? m).map (muteDigitalCells (o0 + (m + 1)) 0)
      rw [ih (o0 + 1) m]
      have harith : o0 + 1 + m = o0 + (m + 1) := by omega
      rw [harith]

/-- C5: `MuteMostDigitalRoutes` sets every digital route `(o, i)` with
`o ≠ i` to 0 and leaves every diagonal digital route `(o, o)` at its prior
volume, for any prior matrix state; the analog matrix, the effects controls
and the observer log are untouched. -/
theorem C5_mute_most_digital (st : MixerState) (o i : Nat) (drow : List Int) (w : Int)
    (hrow : st.digital.get? o = some drow) (hw : drow.get? i = some w) :
    (Mixer.MuteMostDigitalRoutes st).analog = st.analog ∧
    (Mixer.MuteMostDigitalRoutes st).fx = st.fx ∧
    (Mixer.MuteMostDigitalRoutes st).log = st.log ∧
    Mixer.GetVolume (Mixer.MuteMostDigitalRoutes st) (o : Int) (i : Int) true =
      some (if o = i then w else 0) := by
  refine ⟨rfl, rfl, rfl, ?_⟩
  rw [getVolume_nat]
  show ((muteDigitalRows 0 st.digital).get? o).bind (fun row => row.get? i) =
    some (if o = i then w else 0)
  rw [muteRows_get? 0 st.digital o, hrow]
  show (muteDigitalCells (0 + o) 0 drow).get? i = some (if o = i then w else 0)
  rw [Nat.zero_add, muteCells_get? o 0 drow i, hw]
  show some (if o = 0 + i then w else 0) = some (if o = i then w else 0)
  rw [Nat.zero_add]

/-- 4-channel matrix pre-seeded with nonzero diagonal and off-diagonal
values, as the spec's test scenario asks. -/
def stW5 : MixerState :=
  { analog := [[1, 2, 3, 4], [5, 6, 7, 8], [9, 10, 11, 12], [13, 14, 15, 16]],
    digital := [[11, 12, 13, 14], [21, 22, 23, 24], [31, 32, 33, 34], [41, 42, 43, 44]],
    fx := [], obs := 0, log := [] }

theorem C5_mute_most_digital_witness :
    Mixer.GetVolume (Mixer.MuteMostDigitalRoutes stW5) 2 1 true = some 0 ∧
    Mixer.GetVolume (Mixer.MuteMostDigitalRoutes stW5) 1 1 true = some 22 ∧
    (Mixer.MuteMostDigitalRoutes stW5).analog = stW5.analog :=
  ⟨(C5_mute_most_digital stW5 2 1 [31, 32, 33, 34] 32 rfl rfl).2.2.2,
   (C5_mute_most_digital stW5 1 1 [21, 22, 23, 24] 22 rfl rfl).2.2.2,
   (C5_mute_most_digital stW5 0 0 [11, 12, 13, 14] 11 rfl rfl).1⟩

/-! ### The Digital section of GetConfigDict iterates by the analog row width -/

/-- Ragged state for C8: one analog row of width 2 but a digital row of
width 1. The hardware never reports this shape for a Fast Track Ultra, but
the claim quantifies over it explicitly. -/
def stW8 : MixerState :=
  { analog := [[5, 6]], digital := [[7]], fx := [], obs := 0, log := [] }

/-- C8: evaluating the encoder at a state whose digital row is shorter than
the corresponding analog row shows the defect of line 159
(`for i in range(len(self.__analog_routes[o]))` inside the Digital loop):
`GetConfigDict` raises `IndexError` (= `none`) instead of producing the
total dump of the digital routes that exist. -/
theorem C8_encode_raises : Mixer.GetConfigDict stW8 = none := by decide

/-! ### Watcher poll-cycle batching -/

/-- C7: within one poll cycle, with `(ca, cd)` the batch of routes whose
descriptors signalled a `POLLIN` change (split analog/digital, in event
order): if the batch is empty the cycle changes nothing and performs no
dispatch; if it is non-empty, the cycle appends exactly one dispatch per
registered observer, each carrying both lists — so two changes in the same
cycle arrive in one dispatch containing both, and an idle cycle dispatches
nothing. -/
theorem C7_poll_batching (st : MixerState) (dmap : List (Nat × (Nat × Nat × Bool)))
    (events : List (Nat × Nat)) (ca cd : List (Nat × Nat))
    (h : collectChanges dmap events = some (ca, cd)) :
    (ca = [] ∧ cd = [] → Mixer.pollCycle st dmap events = some st) ∧
    (ca ≠ [] ∨ cd ≠ [] → Mixer.pollCycle st dmap events =
      some { st with log := st.log ++ (List.replicate st.obs
        ((ca.map (fun q => ((q.1 : Int), (q.2 : Int)))),
         (cd.map (fun q => ((q.1 : Int), (q.2 : Int)))))) }) := by
  constructor
  · rintro ⟨h1, h2⟩
    subst h1
    subst h2
    unfold Mixer.pollCycle
    rw [h]
    show some (if ([] : List (Nat × Nat)) ≠ [] ∨ ([] : List (Nat × Nat)) ≠ [] then _ else st) =
      some st
    rw [if_neg (by simp)]
  · intro hne
    unfold Mixer.pollCycle
    rw [h]
    show some (if ca ≠ [] ∨ cd ≠ [] then
        { st with log := st.log ++ (List.replicate st.obs
          ((ca.map (fun q => ((q.1 : Int), (q.2 : Int)))),
           (cd.map (fun q => ((q.1 : Int), (q.2 : Int)))))) }
      else st) = _
    rw [if_pos hne]

/-- Poll state for the C7 witness: two observers, two registered
descriptors (fd 3 → analog route (0, 1), fd 4 → digital route (1, 1)). -/
def stW7 : MixerState :=
  { analog := [[1, 2], [3, 4]], digital := [[5, 6], [7, 8]], fx := [], obs := 2, log := [] }

def dmapW7 : List (Nat × (Nat × Nat × Bool)) :=
  [(3, (0, 1, false)), (4, (1, 1, true))]

theorem C7_poll_batching_witness :
    Mixer.pollCycle stW7 dmapW7 [(3, 1), (4, 1)] =
      some { stW7 with log := stW7.log ++ (List.replicate stW7.obs
        (([((0 : Nat), (1 : Nat))].map (fun q => ((q.1 : Int), (q.2 : Int)))),
         ([((1 : Nat), (1 : Nat))].map (fun q => ((q.1 : Int), (q.2 : Int)))))) } ∧
    Mixer.pollCycle stW7 dmapW7 [(3, 0)] = some stW7 :=
  ⟨(C7_poll_batching stW7 dmapW7 [(3, 1), (4, 1)] [(0, 1)] [(1, 1)] (by decide)).2
     (by simp),
   (C7_poll_batching stW7 dmapW7 [(3, 0)] [] [] (by decide)).1 ⟨rfl, rfl⟩⟩

/-! ### Decode tolerance -/

theorem parseRouteKey_bogus : parseRouteKey "ain" "bogus" = none := by
  have h1 : pySplit "ain" "bogus" = ["bogus"] := by
    unfold pySplit
    show (splitGo 'a' "in".toList [] "bogus".toList).map String.mk = ["bogus"]
    rw [splitGo_all 'a' "in".toList "bogus".toList [] (by decide)]
    rfl
  unfold parseRouteKey
  rw [h1]
  rfl

def stW6 : MixerState :=
  { analog := [[10]], digital := [[20]], fx := [⟨"Master Volume", FxKind.linear 5⟩],
    obs := 1, log := [] }

/-- C6 counterexample: a key in the Analog section that does not match the
`ain{I}_to_out{O}` pattern is not silently skipped — `ParseConfigDict`
raises (`key.split("ain")[1]` is an `IndexError` for the key `"bogus"`),
refuting "completes without raising an error for every config dictionary". -/
theorem C6_parse_counterexample :
    Mixer.ParseConfigDict stW6 [("Analog", [("bogus", CV.num 5)])] = none := by
  have h2 : applyRouteKeysGo false stW6 [("bogus", CV.num 5)] = none := by
    show (parseRouteKey "ain" "bogus").bind (fun io =>
        (cvToInt (CV.num 5)).bind (fun nv =>
          (Mixer.SetVolume stW6 nv io.2 io.1 false).bind (fun st2 =>
            (applyRouteKeysGo false st2 []).bind (fun r =>
              some (r.1, (io.2, io.1) :: r.2))))) = none
    rw [parseRouteKey_bogus]
    rfl
  unfold Mixer.ParseConfigDict
  rw [lookupKV_cons_pos, sectionApply_some, h2]
  rfl

/-- C6 amended: decoding tolerates missing sections (no change to that
category), ignores unknown sections entirely, and silently skips unknown
keys in the Effects section — but only there: when the Analog and Digital
sections are absent (or, per the counterexample, when their keys are
well-formed), `ParseConfigDict` completes, leaving all state unchanged apart
from the observer dispatch; a malformed Analog/Digital key raises instead of
being skipped. -/
theorem C6_parse_tolerant (st : MixerState) (d : ConfigDict)
    (hA : lookupKV d "Analog" = none) (hD : lookupKV d "Digital" = none)
    (hE : ∀ c ∈ st.fx,
      lookupKV ((lookupKV d "Effects").getD []) (normalizeName c.name) = none) :
    Mixer.ParseConfigDict st d =
      some ({ st with log := st.log ++ List.replicate st.obs ([], []) }, [], []) := by
  have heff : ∀ sec, lookupKV d "Effects" = some sec →
      applyEffectsGo sec (st.fx.map (fun c => c.name)) st = some st := by
    intro sec hsec
    apply applyEffectsGo_fix
    intro n hn
    obtain ⟨c, hc, hce⟩ := List.mem_map.mp hn
    have hnone : lookupKV sec (normalizeName n) = none := by
      have := hE c hc
      rw [hsec] at this
      rw [hce] at this
      exact this
    unfold effApplyOne
    rw [hnone]
  unfold Mixer.ParseConfigDict
  rw [hA, sectionApply_none]
  simp only [Option.some_bind]
  rw [hD, sectionApply_none]
  simp only [Option.some_bind]
  cases hEs : lookupKV d "Effects" with
  | none =>
    rw [effectsApply_none]
    simp only [Option.some_bind]
  | some sec =>
    rw [effectsApply_some, heff sec hEs]
    simp only [Option.some_bind]

def dW6 : ConfigDict :=
  [("Bogus", [("x", CV.num 1)]), ("Effects", [("unknown_key", CV.num 3)])]

theorem C6_parse_tolerant_witness :
    Mixer.ParseConfigDict stW6 dW6 =
      some ({ stW6 with log := stW6.log ++ List.replicate stW6.obs ([], []) }, [], []) :=
  C6_parse_tolerant stW6 dW6 (by decide) (by decide) (by decide)

/-! ### The link cascade -/

theorem list_get?_set_self (l : List α) (n : Nat) (a : α) (h : n < l.length) :
    (l.set n a).get? n = some a := by
  induction l generalizing n with
  | nil => simp at h
  | cons x xs ih =>
    cases n with
    | zero => rfl
    | succ m => exact ih m (by simpa using h)

theorem list_get?_set_other (l : List α) (n m : Nat) (a : α) (h : n ≠ m) :
    (l.set n a).get? m = l.get? m := by
  induction l generalizing n m with
  | nil => rfl
  | cons x xs ih =>
    cases n with
    | zero =>
      cases m with
      | zero => exact absurd rfl h
      | succ k => rfl
    | succ n' =>
      cases m with
      | zero => rfl
      | succ k => exact ih n' k (fun he => h (by rw [he]))

theorem onHW_step (fuel : Nat) (eventId : Option (Nat × Nat)) (oc ic : Nat)
    (g : GuiState) (m : MixerState) :
    onHardwareRouting (fuel + 1) eventId oc ic g m =
      ((g.sliders.get? oc).bind (fun row => row.get? ic)).bind (fun volume =>
        (Mixer.SetVolume m volume (oc : Int) (ic : Int) false).bind (fun m2 =>
          (g.links.get? oc).bind (fun linked =>
            match linked, eventId with
            | some L, some eid =>
              ((g.sliders.get? L).bind (fun row => row.get? ic)).bind (fun _ =>
                if eid = (L, ic) then some (g, m2)
                else (setSliderVal g L ic volume).bind (fun g2 =>
                  onHardwareRouting fuel eventId L ic g2 m2))
            | _, _ => some (g, m2)))) := rfl

theorem setSliderVal_eq (g : GuiState) (o i : Nat) (v : Int) (row : List Int)
    (hrow : g.sliders.get? o = some row) (hi : i < row.length) :
    setSliderVal g o i v = some { g with sliders := g.sliders.set o (row.set i v) } := by
  obtain ⟨w, hw⟩ := get?_exists row i hi
  unfold setSliderVal
  rw [hrow]
  simp only [Option.bind_eq_bind, Option.some_bind]
  rw [hw]
  simp only [Option.bind_eq_bind, Option.some_bind]
  rfl

theorem onHW_two_step (g1 : GuiState) (m : MixerState) (a b i : Nat) (v : Int)
    (rB rMa rMb : List Int)
    (hab : a ≠ b)
    (hva : (g1.sliders.get? a).bind (fun r => r.get? i) = some v)
    (hla : g1.links.get? a = some (some b))
    (hrB : g1.sliders.get? b = some rB) (hiB : i < rB.length)
    (hrMa : m.analog.get? a = some rMa) (hiMa : i < rMa.length)
    (hrMb : m.analog.get? b = some rMb) (hiMb : i < rMb.length)
    (hstop : g1.links.get? b = some none ∨ g1.links.get? b = some (some a)) :
    ∀ fuel, onHardwareRouting (fuel + 2) (some (a, i)) a i g1 m =
      some ({ g1 with sliders := g1.sliders.set b (rB.set i v) },
            { m with analog := (m.analog.set a (rMa.set i v)).set b (rMb.set i v) }) := by
  intro fuel
  have hm2 : Mixer.SetVolume m v (a : Int) (i : Int) false =
      some { m with analog := m.analog.set a (rMa.set i v) } :=
    setVolume_nat_analog m v a i rMa hrMa hiMa
  have hfetchB : (g1.sliders.get? b).bind (fun row => row.get? i) =
      some (rB.get ⟨i, hiB⟩) := by
    rw [hrB]
    simp only [Option.some_bind]
    exact List.get?_eq_get hiB
  have hg2 : setSliderVal g1 b i v =
      some { g1 with sliders := g1.sliders.set b (rB.set i v) } :=
    setSliderVal_eq g1 b i v rB hrB hiB
  have hvb : (({ g1 with sliders := g1.sliders.set b (rB.set i v) } : GuiState).sliders.get?
      b).bind (fun r => r.get? i) = some v := by
    show ((g1.sliders.set b (rB.set i v)).get? b).bind (fun r => r.get? i) = some v
    rw [list_get?_set_self g1.sliders b (rB.set i v) (List.get?_eq_some.mp hrB).1]
    simp only [Option.some_bind]
    exact list_get?_set_self rB i v hiB
  have hm2b : ({ m with analog := m.analog.set a (rMa.set i v) } : MixerState).analog.get? b =
      some rMb := by
    show (m.analog.set a (rMa.set i v)).get? b = some rMb
    rw [list_get?_set_other m.analog a b (rMa.set i v) hab]
    exact hrMb
  have hm3 : Mixer.SetVolume { m with analog := m.analog.set a (rMa.set i v) } v
      (b : Int) (i : Int) false =
      some { m with analog := (m.analog.set a (rMa.set i v)).set b (rMb.set i v) } :=
    setVolume_nat_analog { m with analog := m.analog.set a (rMa.set i v) } v b i rMb hm2b hiMb
  show onHardwareRouting (fuel + 1 + 1) (some (a, i)) a i g1 m = _
  rw [onHW_step (fuel + 1) (some (a, i)) a i g1 m]
  rw [hva]
  simp only [Option.some_bind]
  rw [hm2]
  simp only [Option.some_bind]
  rw [hla]
  simp only [Option.some_bind]
  rw [hfetchB]
  simp only [Option.some_bind]
  rw [if_neg (fun he => hab (congrArg Prod.fst he))]
  rw [hg2]
  simp only [Option.some_bind]
  rw [onHW_step fuel (some (a, i)) b i
    { g1 with sliders := g1.sliders.set b (rB.set i v) }
    { m with analog := m.analog.set a (rMa.set i v) }]
  rw [hvb]
  simp only [Option.some_bind]
  rw [hm3]
  simp only [Option.some_bind]
  have hlinks2 : ({ g1 with sliders := g1.sliders.set b (rB.set i v) } : GuiState).links.get?
      b = g1.links.get? b := rfl
  rcases hstop with hstop | hstop
  · rw [hlinks2, hstop]
    simp only [Option.some_bind]
  · rw [hlinks2, hstop]
    simp only [Option.some_bind]
    have hfetchA : (({ g1 with sliders := g1.sliders.set b (rB.set i v) } :
        GuiState).sliders.get? a).bind (fun r => r.get? i) = some v := by
      show ((g1.sliders.set b (rB.set i v)).get? a).bind (fun r => r.get? i) = some v
      rw [list_get?_set_other g1.sliders b a (rB.set i v) (fun he => hab he.symm)]
      exact hva
    rw [hfetchA]
    simp only [Option.some_bind]
    rw [if_pos trivial]

/-- C3: two-cycle termination of the link cascade. With the link table
mapping output `a` to `b` and `b` back to `a`, the user-facing set-volume
path (`__OnHardwareRouting`, fired by dragging slider `(a, i)`) terminates
after exactly two propagation steps: recursion fuel 2 already yields a
result, and any larger fuel yields the same result — the guard
`event.GetId() != linked_slider.GetId()` stops the chain when it returns to
the slider the event originated from. -/
theorem C3_cascade_two_cycle_terminates (g : GuiState) (m : MixerState) (a b i : Nat)
    (v : Int) (rA rB rMa rMb : List Int)
    (hab : a ≠ b)
    (hla : g.links.get? a = some (some b)) (hlb : g.links.get? b = some (some a))
    (hrA : g.sliders.get? a = some rA) (hiA : i < rA.length)
    (hrB : g.sliders.get? b = some rB) (hiB : i < rB.length)
    (hrMa : m.analog.get? a = some rMa) (hiMa : i < rMa.length)
    (hrMb : m.analog.get? b = some rMb) (hiMb : i < rMb.length) :
    (userSetVolume 2 v a i g m).isSome = true ∧
    ∀ fuel, userSetVolume (fuel + 2) v a i g m = userSetVolume 2 v a i g m := by
  have hset : setSliderVal g a i v =
      some { g with sliders := g.sliders.set a (rA.set i v) } :=
    setSliderVal_eq g a i v rA hrA hiA
  have hva : (({ g with sliders := g.sliders.set a (rA.set i v) } : GuiState).sliders.get?
      a).bind (fun r => r.get? i) = some v := by
    show ((g.sliders.set a (rA.set i v)).get? a).bind (fun r => r.get? i) = some v
    rw [list_get?_set_self g.sliders a (rA.set i v) (List.get?_eq_some.mp hrA).1]
    simp only [Option.some_bind]
    exact list_get?_set_self rA i v hiA
  have hrB1 : ({ g with sliders := g.sliders.set a (rA.set i v) } : GuiState).sliders.get? b =
      some rB := by
    show (g.sliders.set a (rA.set i v)).get? b = some rB
    rw [list_get?_set_other g.sliders a b (rA.set i v) hab]
    exact hrB
  have hla1 : ({ g with sliders := g.sliders.set a (rA.set i v) } : GuiState).links.get? a =
      some (some b) := hla
  have hstop : ({ g with sliders := g.sliders.set a (rA.set i v) } : GuiState).links.get? b =
      some none ∨
      ({ g with sliders := g.sliders.set a (rA.set i v) } : GuiState).links.get? b =
      some (some a) := Or.inr hlb
  have h2 := onHW_two_step { g with sliders := g.sliders.set a (rA.set i v) } m a b i v
    rB rMa rMb hab hva hla1 hrB1 hiB hrMa hiMa hrMb hiMb hstop
  have huser : ∀ fuel, userSetVolume (fuel + 2) v a i g m =
      onHardwareRouting (fuel + 2) (some (a, i)) a i
        { g with sliders := g.sliders.set a (rA.set i v) } m := by
    intro fuel
    unfold userSetVolume
    rw [hset]
    simp only [Option.bind_eq_bind, Option.some_bind]
  have huser0 : userSetVolume 2 v a i g m =
      onHardwareRouting 2 (some (a, i)) a i
        { g with sliders := g.sliders.set a (rA.set i v) } m := huser 0
  have h20 : onHardwareRouting 2 (some (a, i)) a i
      { g with sliders := g.sliders.set a (rA.set i v) } m =
      some ({ { g with sliders := g.sliders.set a (rA.set i v) } with
                sliders := ({ g with sliders := g.sliders.set a (rA.set i v) } :
                  GuiState).sliders.set b (rB.set i v) },
            { m with analog := (m.analog.set a (rMa.set i v)).set b (rMb.set i v) }) := h2 0
  constructor
  · rw [huser0, h20]
    rfl
  · intro fuel
    rw [huser fuel, h2 fuel, huser0, h20]

def gW3 : GuiState := { sliders := [[10, 11], [12, 13]], links := [some 1, some 0] }

def mW3 : MixerState :=
  { analog := [[1, 2], [3, 4]], digital := [], fx := [], obs := 1, log := [] }

theorem C3_cascade_two_cycle_terminates_witness :
    (userSetVolume 2 55 0 0 gW3 mW3).isSome = true ∧
    userSetVolume 5 55 0 0 gW3 mW3 = userSetVolume 2 55 0 0 gW3 mW3 :=
  ⟨(C3_cascade_two_cycle_terminates gW3 mW3 0 1 0 55 [10, 11] [12, 13] [1, 2] [3, 4]
      (by decide) rfl rfl rfl (by decide) rfl (by decide) rfl (by decide) rfl (by decide)).1,
   (C3_cascade_two_cycle_terminates gW3 mW3 0 1 0 55 [10, 11] [12, 13] [1, 2] [3, 4]
      (by decide) rfl rfl rfl (by decide) rfl (by decide) rfl (by decide) rfl (by decide)).2 3⟩

/-- C4 counterexample: with output 2 linked to output 1, one registered
observer and an empty dispatch log, the user-facing `SetVolume(70, output=2,
input=0)` cascade does replicate the volume to route `(1, 0)` — but its
dispatch log stays empty: the cascade performs zero observer dispatches
(`Mixer.SetVolume` never notifies; only `ParseConfigDict` and the polling
thread do), so no "single consolidated notification covering both routes"
is dispatched, refuting the claim as stated. -/
theorem C4_single_dispatch_counterexample :
    (userSetVolume 5 70 2 0
      { sliders := [[10], [20], [30]], links := [none, none, some 1] }
      { analog := [[1], [2], [3]], digital := [], fx := [], obs := 1, log := [] }).map
      (fun r => (Mixer.GetVolume r.2 1 0 false, Mixer.GetVolume r.2 2 0 false,
                 r.2.obs, r.2.log.length)) =
      some (some 70, some 70, 1, 0) := by
  decide

/-- C4 amended: when output `c2`'s link target is output `c1` (itself
unlinked), the user-facing set-volume path applies the same volume to both
routes — `GetVolume(c1, i) = GetVolume(c2, i) = v` afterwards — and the
cascade itself dispatches no observer notification at all (the observer log
is unchanged): the GUI updates the linked slider directly, and observer
dispatches happen only in `ParseConfigDict` and the polling loop. -/
theorem C4_link_replication (g : GuiState) (m : MixerState) (c1 c2 i : Nat) (v : Int)
    (rA rB rMa rMb : List Int)
    (h21 : c2 ≠ c1)
    (hl2 : g.links.get? c2 = some (some c1)) (hl1 : g.links.get? c1 = some none)
    (hrA : g.sliders.get? c2 = some rA) (hiA : i < rA.length)
    (hrB : g.sliders.get? c1 = some rB) (hiB : i < rB.length)
    (hrMa : m.analog.get? c2 = some rMa) (hiMa : i < rMa.length)
    (hrMb : m.analog.get? c1 = some rMb) (hiMb : i < rMb.length) :
    ∃ g2 m3, (∀ fuel, userSetVolume (fuel + 2) v c2 i g m = some (g2, m3)) ∧
      Mixer.GetVolume m3 (c1 : Int) (i : Int) false = some v ∧
      Mixer.GetVolume m3 (c2 : Int) (i : Int) false = some v ∧
      m3.log = m.log ∧ m3.obs = m.obs := by
  have hset : setSliderVal g c2 i v =
      some { g with sliders := g.sliders.set c2 (rA.set i v) } :=
    setSliderVal_eq g c2 i v rA hrA hiA
  have hva : (({ g with sliders := g.sliders.set c2 (rA.set i v) } : GuiState).sliders.get?
      c2).bind (fun r => r.get? i) = some v := by
    show ((g.sliders.set c2 (rA.set i v)).get? c2).bind (fun r => r.get? i) = some v
    rw [list_get?_set_self g.sliders c2 (rA.set i v) (List.get?_eq_some.mp hrA).1]
    simp only [Option.some_bind]
    exact list_get?_set_self rA i v hiA
  have hrB1 : ({ g with sliders := g.sliders.set c2 (rA.set i v) } : GuiState).sliders.get?
      c1 = some rB := by
    show (g.sliders.set c2 (rA.set i v)).get? c1 = some rB
    rw [list_get?_set_other g.sliders c2 c1 (rA.set i v) h21]
    exact hrB
  have hla1 : ({ g with sliders := g.sliders.set c2 (rA.set i v) } : GuiState).links.get?
      c2 = some (some c1) := hl2
  have hstop : ({ g with sliders := g.sliders.set c2 (rA.set i v) } : GuiState).links.get?
      c1 = some none ∨
      ({ g with sliders := g.sliders.set c2 (rA.set i v) } : GuiState).links.get? c1 =
      some (some c2) := Or.inl hl1
  have h2 := onHW_two_step { g with sliders := g.sliders.set c2 (rA.set i v) } m c2 c1 i v
    rB rMa rMb h21 hva hla1 hrB1 hiB hrMa hiMa hrMb hiMb hstop
  refine ⟨{ { g with sliders := g.sliders.set c2 (rA.set i v) } with
              sliders := ({ g with sliders := g.sliders.set c2 (rA.set i v) } :
                GuiState).sliders.set c1 (rB.set i v) },
          { m with analog := (m.analog.set c2 (rMa.set i v)).set c1 (rMb.set i v) },
          ?_, ?_, ?_, rfl, rfl⟩
  · intro fuel
    unfold userSetVolume
    rw [hset]
    simp only [Option.bind_eq_bind, Option.some_bind]
    exact h2 fuel
  · rw [getVolume_nat]
    show (((m.analog.set c2 (rMa.set i v)).set c1 (rMb.set i v)).get? c1).bind
      (fun row => row.get? i) = some v
    have hlen : c1 < (m.analog.set c2 (rMa.set i v)).length := by
      rw [List.length_set]
      exact (List.get?_eq_some.mp hrMb).1
    rw [list_get?_set_self (m.analog.set c2 (rMa.set i v)) c1 (rMb.set i v) hlen]
    simp only [Option.some_bind]
    exact list_get?_set_self rMb i v hiMb
  · rw [getVolume_nat]
    show (((m.analog.set c2 (rMa.set i v)).set c1 (rMb.set i v)).get? c2).bind
      (fun row => row.get? i) = some v
    rw [list_get?_set_other (m.analog.set c2 (rMa.set i v)) c1 c2 (rMb.set i v)
      (fun he => h21 he.symm)]
    rw [list_get?_set_self m.analog c2 (rMa.set i v) (List.get?_eq_some.mp hrMa).1]
    simp only [Option.some_bind]
    exact list_get?_set_self rMa i v hiMa

def gW4 : GuiState := { sliders := [[10], [20], [30]], links := [none, none, some 1] }

def mW4 : MixerState :=
  { analog := [[1], [2], [3]], digital := [], fx := [], obs := 1, log := [] }

theorem C4_link_replication_witness :
    ∃ g2 m3, (∀ fuel, userSetVolume (fuel + 2) 70 2 0 gW4 mW4 = some (g2, m3)) ∧
      Mixer.GetVolume m3 1 0 false = some 70 ∧
      Mixer.GetVolume m3 2 0 false = some 70 ∧
      m3.log = mW4.log ∧ m3.obs = mW4.obs :=
  C4_link_replication gW4 mW4 1 2 0 70 [30] [20] [3] [2]
    (by decide) rfl rfl rfl (by decide) rfl (by decide) rfl (by decide) rfl (by decide)

/-! ### ParseConfigDict observer dispatch (implicit claim) -/


theorem setVolume_frame (st st2 : MixerState) (v o i : Int) (dig : Bool)
    (h : Mixer.SetVolume st v o i dig = some st2) :
    st2.fx = st.fx ∧ st2.obs = st.obs ∧ st2.log = st.log := by
  cases dig with
  | false =>
    replace h : (pySet2 st.analog o i v).map (fun a2 => { st with analog := a2 }) =
      some st2 := h
    cases hp : pySet2 st.analog o i v with
    | none => rw [hp] at h; exact Option.noConfusion h
    | some m2 =>
      rw [hp] at h
      have h2 : ({ st with analog := m2 } : MixerState) = st2 := Option.some.inj h
      rw [← h2]
      exact ⟨rfl, rfl, rfl⟩
  | true =>
    replace h : (pySet2 st.digital o i v).map (fun d2 => { st with digital := d2 }) =
      some st2 := h
    cases hp : pySet2 st.digital o i v with
    | none => rw [hp] at h; exact Option.noConfusion h
    | some m2 =>
      rw [hp] at h
      have h2 : ({ st with digital := m2 } : MixerState) = st2 := Option.some.inj h
      rw [← h2]
      exact ⟨rfl, rfl, rfl⟩

theorem applyRouteKeysGo_frame (dig : Bool) (sec : List (String × CV)) :
    ∀ st st2 ch, applyRouteKeysGo dig st sec = some (st2, ch) →
    st2.fx = st.fx ∧ st2.obs = st.obs ∧ st2.log = st.log := by
  induction sec with
  | nil =>
    intro st st2 ch h
    have h2 : ((st, []) : MixerState × List (Int × Int)) = (st2, ch) := Option.some.inj h
    have hst : st = st2 := congrArg Prod.fst h2
    rw [← hst]
    exact ⟨rfl, rfl, rfl⟩
  | cons p rest ih =>
    intro st st2 ch h
    cases p with
    | mk k v =>
      replace h : (parseRouteKey (if dig then "din" else "ain") k).bind (fun io =>
          (cvToInt v).bind (fun nv =>
            (Mixer.SetVolume st nv io.2 io.1 dig).bind (fun stm =>
              (applyRouteKeysGo dig stm rest).bind (fun r =>
                some (r.1, (io.2, io.1) :: r.2))))) = some (st2, ch) := h
      cases hio : parseRouteKey (if dig then "din" else "ain") k with
      | none => rw [hio] at h; exact Option.noConfusion h
      | some io =>
        rw [hio] at h
        simp only [Option.some_bind] at h
        cases hnv : cvToInt v with
        | none => rw [hnv] at h; exact Option.noConfusion h
        | some nv =>
          rw [hnv] at h
          simp only [Option.some_bind] at h
          cases hsv : Mixer.SetVolume st nv io.2 io.1 dig with
          | none => rw [hsv] at h; exact Option.noConfusion h
          | some stm =>
            rw [hsv] at h
            simp only [Option.some_bind] at h
            cases hrec : applyRouteKeysGo dig stm rest with
            | none => rw [hrec] at h; exact Option.noConfusion h
            | some r =>
              rw [hrec] at h
              simp only [Option.some_bind] at h
              have h2 := Option.some.inj h
              have hst : r.1 = st2 := congrArg Prod.fst h2
              obtain ⟨f1, f2, f3⟩ := setVolume_frame st stm nv io.2 io.1 dig hsv
              obtain ⟨g1, g2, g3⟩ := ih stm r.1 r.2 (by rw [hrec])
              rw [← hst]
              exact ⟨g1.trans f1, g2.trans f2, g3.trans f3⟩

theorem applyRouteKeysGo_named (dig : Bool) (sec : List (String × CV)) :
    ∀ st st2 ch, applyRouteKeysGo dig st sec = some (st2, ch) →
    specNamedRoutes (if dig then "din" else "ain") sec = some ch := by
  induction sec with
  | nil =>
    intro st st2 ch h
    have h2 : ((st, []) : MixerState × List (Int × Int)) = (st2, ch) := Option.some.inj h
    have hch : ([] : List (Int × Int)) = ch := congrArg Prod.snd h2
    rw [← hch]
    rfl
  | cons p rest ih =>
    intro st st2 ch h
    cases p with
    | mk k v =>
      replace h : (parseRouteKey (if dig then "din" else "ain") k).bind (fun io =>
          (cvToInt v).bind (fun nv =>
            (Mixer.SetVolume st nv io.2 io.1 dig).bind (fun stm =>
              (applyRouteKeysGo dig stm rest).bind (fun r =>
                some (r.1, (io.2, io.1) :: r.2))))) = some (st2, ch) := h
      cases hio : parseRouteKey (if dig then "din" else "ain") k with
      | none => rw [hio] at h; exact Option.noConfusion h
      | some io =>
        rw [hio] at h
        simp only [Option.some_bind] at h
        cases hnv : cvToInt v with
        | none => rw [hnv] at h; exact Option.noConfusion h
        | some nv =>
          rw [hnv] at h
          simp only [Option.some_bind] at h
          cases hsv : Mixer.SetVolume st nv io.2 io.1 dig with
          | none => rw [hsv] at h; exact Option.noConfusion h
          | some stm =>
            rw [hsv] at h
            simp only [Option.some_bind] at h
            cases hrec : applyRouteKeysGo dig stm rest with
            | none => rw [hrec] at h; exact Option.noConfusion h
            | some r =>
              rw [hrec] at h
              simp only [Option.some_bind] at h
              have h2 := Option.some.inj h
              have hch : (io.2, io.1) :: r.2 = ch := congrArg Prod.snd h2
              have hrest := ih stm r.1 r.2 (by rw [hrec])
              show (parseRouteKey (if dig then "din" else "ain") k).bind (fun io' =>
                (specNamedRoutes (if dig then "din" else "ain") rest).bind (fun ps =>
                  some ((io'.2, io'.1) :: ps))) = some ch
              rw [hio]
              simp only [Option.some_bind]
              rw [hrest]
              simp only [Option.some_bind]
              rw [hch]

theorem effApplyOne_frame (eff : List (String × CV)) (st : MixerState) (n : String)
    (st2 : MixerState) (h : effApplyOne eff st n = some st2) :
    st2.analog = st.analog ∧ st2.digital = st.digital ∧ st2.obs = st.obs ∧
    st2.log = st.log := by
  unfold effApplyOne at h
  split at h
  · have h2 : st = st2 := Option.some.inj h
    rw [← h2]
    exact ⟨rfl, rfl, rfl, rfl⟩
  · split at h
    · exact Option.noConfusion h
    · split at h
      · obtain ⟨nv, _, hmap⟩ := Option.map_eq_some'.mp h
        rw [← hmap]
        exact ⟨rfl, rfl, rfl, rfl⟩
      · split at h
        · split at h
          · have h2 := Option.some.inj h
            rw [← h2]
            exact ⟨rfl, rfl, rfl, rfl⟩
          · have h2 : st = st2 := Option.some.inj h
            rw [← h2]
            exact ⟨rfl, rfl, rfl, rfl⟩
        · have h2 : st = st2 := Option.some.inj h
          rw [← h2]
          exact ⟨rfl, rfl, rfl, rfl⟩

theorem applyEffectsGo_frame (eff : List (String × CV)) (ns : List String) :
    ∀ st st2, applyEffectsGo eff ns st = some st2 →
    st2.analog = st.analog ∧ st2.digital = st.digital ∧ st2.obs = st.obs ∧
    st2.log = st.log := by
  induction ns with
  | nil =>
    intro st st2 h
    have h2 : st = st2 := Option.some.inj h
    rw [← h2]
    exact ⟨rfl, rfl, rfl, rfl⟩
  | cons n rest ih =>
    intro st st2 h
    replace h : (effApplyOne eff st n).bind (applyEffectsGo eff rest) = some st2 := h
    cases he : effApplyOne eff st n with
    | none => rw [he] at h; exact Option.noConfusion h
    | some stm =>
      rw [he] at h
      simp only [Option.some_bind] at h
      obtain ⟨f1, f2, f3, f4⟩ := effApplyOne_frame eff st n stm he
      obtain ⟨g1, g2, g3, g4⟩ := ih stm st2 h
      exact ⟨g1.trans f1, g2.trans f2, g3.trans f3, g4.trans f4⟩

theorem sectionApply_inv (dig : Bool) (st : MixerState) (osec : Option (List (String × CV)))
    (res : MixerState × List (Int × Int)) (h : sectionApply dig st osec = some res) :
    res.1.fx = st.fx ∧ res.1.obs = st.obs ∧ res.1.log = st.log ∧
    specNamedRoutes (if dig then "din" else "ain") (osec.getD []) = some res.2 := by
  cases osec with
  | none =>
    have h2 : ((st, []) : MixerState × List (Int × Int)) = res := Option.some.inj h
    rw [← h2]
    exact ⟨rfl, rfl, rfl, rfl⟩
  | some sec =>
    have h' : applyRouteKeysGo dig st sec = some (res.1, res.2) := h
    obtain ⟨f1, f2, f3⟩ := applyRouteKeysGo_frame dig sec st res.1 res.2 h'
    exact ⟨f1, f2, f3, applyRouteKeysGo_named dig sec st res.1 res.2 h'⟩

theorem effectsApply_inv (st : MixerState) (osec : Option (List (String × CV)))
    (st2 : MixerState) (h : effectsApply st osec = some st2) :
    st2.obs = st.obs ∧ st2.log = st.log := by
  cases osec with
  | none =>
    have h2 : st = st2 := Option.some.inj h
    rw [← h2]
    exact ⟨rfl, rfl⟩
  | some sec =>
    have h' : applyEffectsGo sec (st.fx.map (fun c => c.name)) st = some st2 := h
    obtain ⟨_, _, f3, f4⟩ :=
      applyEffectsGo_frame sec (st.fx.map (fun c => c.name)) st st2 h'
    exact ⟨f3, f4⟩

/-- C10 (implicit): a successful `ParseConfigDict` call invokes every
registered observer exactly once — the dispatch log grows by exactly
`st.obs` entries, all equal to `(ca, cd)` — even for an empty or
unrecognised dictionary, in which case both lists are empty; and the
changed-route lists handed to the observers are exactly the `(output,
input)` pairs named by the Analog/Digital section keys, in key order,
independent of whether the written value differs from the route's previous
volume (`specNamedRoutes` does not consult any volume state). -/
theorem C10_parse_notifies (st : MixerState) (d : ConfigDict) (st2 : MixerState)
    (ca cd : List (Int × Int))
    (h : Mixer.ParseConfigDict st d = some (st2, ca, cd)) :
    st2.obs = st.obs ∧
    st2.log = st.log ++ List.replicate st.obs (ca, cd) ∧
    specNamedRoutes "ain" ((lookupKV d "Analog").getD []) = some ca ∧
    specNamedRoutes "din" ((lookupKV d "Digital").getD []) = some cd := by
  unfold Mixer.ParseConfigDict at h
  cases h1 : sectionApply false st (lookupKV d "Analog") with
  | none => rw [h1] at h; exact Option.noConfusion h
  | some r1 =>
    rw [h1] at h
    simp only [Option.some_bind] at h
    cases h2 : sectionApply true r1.1 (lookupKV d "Digital") with
    | none => rw [h2] at h; exact Option.noConfusion h
    | some r2 =>
      rw [h2] at h
      simp only [Option.some_bind] at h
      cases h3 : effectsApply r2.1 (lookupKV d "Effects") with
      | none => rw [h3] at h; exact Option.noConfusion h
      | some st3 =>
        rw [h3] at h
        simp only [Option.some_bind] at h
        have h4 := Option.some.inj h
        have hst : ({ st3 with log := st3.log ++ List.replicate st3.obs (r1.2, r2.2) } :
            MixerState) = st2 := congrArg Prod.fst h4
        have hca : r1.2 = ca := congrArg (fun q => q.2.1) h4
        have hcd : r2.2 = cd := congrArg (fun q => q.2.2) h4
        obtain ⟨a1, a2, a3, a4⟩ := sectionApply_inv false st (lookupKV d "Analog") r1 h1
        obtain ⟨b1, b2, b3, b4⟩ := sectionApply_inv true r1.1 (lookupKV d "Digital") r2 h2
        obtain ⟨c2, c3⟩ := effectsApply_inv r2.1 (lookupKV d "Effects") st3 h3
        rw [← hst, ← hca, ← hcd]
        refine ⟨?_, ?_, a4, b4⟩
        · show st3.obs = st.obs
          rw [c2, b2, a2]
        · show st3.log ++ List.replicate st3.obs (r1.2, r2.2) =
            st.log ++ List.replicate st.obs (r1.2, r2.2)
          rw [c3, b3, a3, c2, b2, a2]

theorem C10_parse_notifies_witness :
    ∃ st2, Mixer.ParseConfigDict stW6 [] = some (st2, [], []) ∧
      st2.obs = stW6.obs ∧
      st2.log = stW6.log ++ List.replicate stW6.obs ([], []) ∧
      specNamedRoutes "ain" ((lookupKV ([] : ConfigDict) "Analog").getD []) = some [] ∧
      specNamedRoutes "din" ((lookupKV ([] : ConfigDict) "Digital").getD []) = some [] := by
  refine ⟨{ stW6 with log := stW6.log ++ List.replicate stW6.obs ([], []) }, rfl, ?_⟩
  exact C10_parse_notifies stW6 []
    { stW6 with log := stW6.log ++ List.replicate stW6.obs ([], []) } [] [] rfl
